import Mathlib

/-! Vitruvio: blend-mode resolution and the mesh cache.

A shallow embedding of

* `Vitruvio/Source/Vitruvio/Private/Util/MaterialConversion.cpp`
  (`CountOpacityMapPixels`, `ChooseBlendModeFromOpacityMap`, `ChooseBlendMode`, `GetBlendMode`),
* `VitruvioHost/Plugins/Vitruvio/Source/Vitruvio/Private/MeshCache.cpp`
  (`FMeshCache::Get`, `FMeshCache::InsertOrGet`),

followed by the theorems proved about them.

Conventions of the embedding.

* `float` and `double` values are binary floating-point numbers; a finite non-negative one is
  kept exactly, as a significand and a binary exponent (`Dyadic`).  Every arithmetic operation
  of the source (`uint32 * double`, `1.0 - 0.02`, `float / int`) is the exact result rounded to
  nearest, ties to even, at 53 (`double`) or 24 (`float`) significant bits.  All operands of
  those operations are integers below `2 ^ 32` and constants between `0.02` and `65535`, so the
  results stay inside the normal exponent range and the exponent is left unbounded.
  Comparisons and the conversions `uint8/uint16/uint32 -> float/double`, `float -> double` are
  exact.
* `int32` and `uint32` values are `Int` and `Nat` with explicit wrap-around.
* A null pointer is `none`; a failed `check(...)` or a dereferenced null pointer is the result
  `none` of the function it happens in.
* `FString` comparison with `==` and `!=` ignores the case of ASCII letters, as the engine's
  does (`FStringEquals`); `IsEmpty` and the lookup of a key in a `TMap` take the string as it
  is stored.
-/

namespace Vitruvio

/-! ## Binary floating point -/

/-- The finite non-negative binary floating-point value `m * 2 ^ e`. -/
structure Dyadic where
  m : Nat
  e : Int
  deriving DecidableEq, Repr

namespace Dyadic

/-- The exact value as a rational. -/
def toRat (x : Dyadic) : ℚ := (x.m : ℚ) * (2 : ℚ) ^ x.e

/-- Exact conversion of an unsigned integer (`static_cast<float>(uint8)`, `uint32 -> double`). -/
def ofNat (n : Nat) : Dyadic := ⟨n, 0⟩

/-- The significand of `x` once both `x` and `y` are written over the smaller exponent. -/
def aligned (x y : Dyadic) : Nat := x.m * 2 ^ (x.e - min x.e y.e).toNat

/-- The exact comparison `x < y`. -/
def lt (x y : Dyadic) : Bool := decide (aligned x y < aligned y x)

/-- The exact comparison `x <= y`. -/
def le (x y : Dyadic) : Bool := decide (aligned x y ≤ aligned y x)

end Dyadic

/-- Floor of the binary logarithm of `n` (`0` for `n = 0`), by halving; `fuel = n` suffices. -/
def log2Fuel : Nat → Nat → Nat
  | 0, _ => 0
  | fuel + 1, n => if n < 2 then 0 else log2Fuel fuel (n / 2) + 1

/-- Floor of the binary logarithm of the positive rational `n / d`. -/
def ilog2 (n d : Nat) : Int :=
  let k : Int := (log2Fuel n n : Int) - (log2Fuel d d : Int)
  if d * 2 ^ k.toNat ≤ n * 2 ^ (-k).toNat then k else k - 1

/-- The quotient `N / D` rounded to the nearest integer, ties to the even one. -/
def halfEven (N D : Nat) : Nat :=
  let q := N / D
  let r := N % D
  if 2 * r < D then q else if D < 2 * r then q + 1 else if q % 2 = 0 then q else q + 1

/-- The rational `n / d` (with `0 < d`) rounded to nearest, ties to even, at `p` significant
bits: the exponent `e` is chosen with `2 ^ (p - 1) <= (n / d) / 2 ^ e < 2 ^ p` and the scaled
quotient is rounded to an integer significand. -/
def roundNE (p : Nat) (n d : Nat) : Dyadic :=
  if n = 0 then ⟨0, 0⟩ else
  let e : Int := ilog2 n d - ((p : Int) - 1)
  ⟨halfEven (n * 2 ^ (-e).toNat) (d * 2 ^ e.toNat), e⟩

/-- The value `m * 2 ^ e` rounded at `p` significant bits. -/
def roundScaled (p : Nat) (m : Nat) (e : Int) : Dyadic :=
  roundNE p (m * 2 ^ e.toNat) (2 ^ (-e).toNat)

/-- A `double` literal: the decimal `n / d` rounded at 53 bits. -/
def doubleLit (n d : Nat) : Dyadic := roundNE 53 n d

/-- Product of two non-negative `double` values. -/
def dmul (x y : Dyadic) : Dyadic := roundScaled 53 (x.m * y.m) (x.e + y.e)

/-- Difference `x - y` of two non-negative `double` values with `y <= x`. -/
def dsub (x y : Dyadic) : Dyadic :=
  roundScaled 53 (Dyadic.aligned x y - Dyadic.aligned y x) (min x.e y.e)

/-- Quotient `static_cast<float>(v) / k` of an unsigned sample by an integer constant, in
`float` arithmetic. -/
def fdivNat (v k : Nat) : Dyadic := roundNE 24 v k

/-- A `double` argument of arbitrary sign, including the non-finite values.  `Neg x` is `-x`
(so `Neg 0` is the negative zero). -/
inductive Double where
  | NaN
  | NegInf
  | PosInf
  | Neg (x : Dyadic)
  | Pos (x : Dyadic)
  deriving DecidableEq, Repr

namespace Double

/-- IEEE `a < b`: false when either side is NaN, the two zeros are equal. -/
def lt : Double → Double → Bool
  | NaN, _ => false
  | _, NaN => false
  | _, NegInf => false
  | NegInf, _ => true
  | PosInf, _ => false
  | _, PosInf => true
  | Neg x, Neg y => Dyadic.lt y x
  | Neg x, Pos y => decide (x.m ≠ 0 ∨ y.m ≠ 0)
  | Pos _, Neg _ => false
  | Pos x, Pos y => Dyadic.lt x y

/-- IEEE `a >= b`: false when either side is NaN. -/
def ge (a b : Double) : Bool :=
  match a, b with
  | NaN, _ => false
  | _, NaN => false
  | a, b => !(lt a b)

end Double

/-! ## MaterialConversion.cpp -/

/-- The engine comparison `==` of two `FString` values (and of an `FString` with a literal):
equal after every ASCII letter is lower-cased.  The comparison `!=` is its negation. -/
def FStringEquals (a b : String) : Bool :=
  decide (a.data.map Char.toLower = b.data.map Char.toLower)

/-- The constant `constexpr double BLACK_COLOR_THRESHOLD = 0.02;`. -/
def BLACK_COLOR_THRESHOLD : Dyadic := doubleLit 2 100

/-- The constant `constexpr double WHITE_COLOR_THRESHOLD = 1.0 - BLACK_COLOR_THRESHOLD;`,
evaluated in `double` arithmetic. -/
def WHITE_COLOR_THRESHOLD : Dyadic := dsub (Dyadic.ofNat 1) BLACK_COLOR_THRESHOLD

/-- The constant `constexpr double OPACITY_THRESHOLD = 0.98;`. -/
def OPACITY_THRESHOLD : Dyadic := doubleLit 98 100

/-- The blend modes the source names; `BLEND_Other` stands for the remaining enumerators of the
engine, which the source reaches only through its `else` and `default` branches. -/
inductive EBlendMode where
  | BLEND_Opaque
  | BLEND_Masked
  | BLEND_Translucent
  | BLEND_Other (code : Nat)
  deriving DecidableEq, Repr

/-- The pixel formats the source names; `PF_Other` stands for the remaining enumerators of the
engine, which the source reaches only through the `default` branch of its `switch`. -/
inductive EPixelFormat where
  | PF_Unknown
  | PF_B8G8R8A8
  | PF_G8
  | PF_G16
  | PF_Other (code : Nat)
  deriving DecidableEq, Repr

/-- One pixel of a `PF_B8G8R8A8` buffer. -/
structure FColor where
  B : Nat
  G : Nat
  R : Nat
  A : Nat
  deriving DecidableEq, Repr

/-- The compression settings the source names. -/
inductive TextureCompressionSettings where
  | TC_Default
  | TC_Normalmap
  | TC_Masks
  deriving DecidableEq, Repr

/-- A texture: `GetSizeX()`, `GetSizeY()` (`int32`), `GetPixelFormat()`, the bytes of
`PlatformData->Mips[0].BulkData`, and the members `CompressionSettings` and `SRGB`. -/
structure UTexture2D where
  SizeX : Int
  SizeY : Int
  PixelFormat : EPixelFormat
  BulkData : List Nat
  CompressionSettings : TextureCompressionSettings
  SRGB : Bool
  deriving DecidableEq, Repr

/-- The descriptor `struct FTextureData { UTexture2D* Texture = nullptr; uint32 NumChannels = 0; }`. -/
structure FTextureData where
  Texture : Option UTexture2D := none
  NumChannels : Nat := 0
  deriving DecidableEq, Repr

/-- The bulk data read through a `const FColor*` (bytes in the order B, G, R, A). -/
def asFColor : List Nat → List FColor
  | b :: g :: r :: a :: rest => ⟨b, g, r, a⟩ :: asFColor rest
  | _ => []

/-- The bulk data read through a `const uint16*` (little endian). -/
def asUInt16 : List Nat → List Nat
  | lo :: hi :: rest => (lo + 256 * hi) :: asUInt16 rest
  | _ => []

/-- Reduction of an integer into the `int32` range (two's complement wrap-around). -/
def wrapInt32 (z : Int) : Int := (z + 2 ^ 31) % 2 ^ 32 - 2 ^ 31

/-- Conversion `int32 -> uint32`. -/
def toUInt32 (z : Int) : Nat := (z % 2 ^ 32).toNat

/-- One iteration of the loop of `CountOpacityMapPixels`, on the pair
`(BlackPixels, WhitePixels)`. -/
def CountStep (acc : Nat × Nat) (Value : Dyadic) : Nat × Nat :=
  if Dyadic.lt Value BLACK_COLOR_THRESHOLD then ((acc.1 + 1) % 2 ^ 32, acc.2)
  else if Dyadic.lt WHITE_COLOR_THRESHOLD Value then (acc.1, (acc.2 + 1) % 2 ^ 32)
  else acc

/-- The template `CountOpacityMapPixels`: both counters are reset, then the first
`SizeX * SizeY` elements of `SrcColors` are visited.  Returns `(BlackPixels, WhitePixels)`. -/
def CountOpacityMapPixels {T : Type} (SrcColors : List T) (SizeX SizeY : Int)
    (Accessor : T → Dyadic) : Nat × Nat :=
  ((SrcColors.take (wrapInt32 (SizeX * SizeY)).toNat).map Accessor).foldl CountStep (0, 0)

/-- The `FColor` overload. -/
def CountOpacityMapPixels_FColor (SrcColors : List FColor) (UseAlphaChannel : Bool)
    (SizeX SizeY : Int) : Nat × Nat :=
  CountOpacityMapPixels SrcColors SizeX SizeY
    (fun Color => fdivNat (if UseAlphaChannel then Color.A else Color.R) 0xFF)

/-- The `uint8` overload. -/
def CountOpacityMapPixels_uint8 (SrcColors : List Nat) (SizeX SizeY : Int) : Nat × Nat :=
  CountOpacityMapPixels SrcColors SizeX SizeY (fun Color => fdivNat Color 0xFF)

/-- The `uint16` overload. -/
def CountOpacityMapPixels_uint16 (SrcColors : List Nat) (SizeX SizeY : Int) : Nat × Nat :=
  CountOpacityMapPixels SrcColors SizeX SizeY (fun Color => fdivNat Color 0xFFFF)

/-- The `switch (PixelFormat)` of `ChooseBlendModeFromOpacityMap`: the pair
`(BlackPixels, WhitePixels)`, or `none` when the `check` on the pixel format fails. -/
def OpacityMapPixelCounts (OpacityMap : UTexture2D) (UseAlphaAsOpacity : Bool) :
    Option (Nat × Nat) :=
  match OpacityMap.PixelFormat with
  | .PF_B8G8R8A8 =>
    some (CountOpacityMapPixels_FColor (asFColor OpacityMap.BulkData) UseAlphaAsOpacity
      OpacityMap.SizeX OpacityMap.SizeY)
  | .PF_G8 =>
    some (CountOpacityMapPixels_uint8 OpacityMap.BulkData OpacityMap.SizeX OpacityMap.SizeY)
  | .PF_G16 =>
    some (CountOpacityMapPixels_uint16 (asUInt16 OpacityMap.BulkData)
      OpacityMap.SizeX OpacityMap.SizeY)
  | _ => none

/-- The three comparisons that end `ChooseBlendModeFromOpacityMap`. -/
def ClassifyCounts (TotalPixels BlackPixels WhitePixels : Nat) : EBlendMode :=
  if Dyadic.le (dmul (Dyadic.ofNat TotalPixels) OPACITY_THRESHOLD) (Dyadic.ofNat WhitePixels)
  then .BLEND_Opaque
  else if Dyadic.le (dmul (Dyadic.ofNat TotalPixels) OPACITY_THRESHOLD)
      (Dyadic.ofNat ((WhitePixels + BlackPixels) % 2 ^ 32))
  then .BLEND_Masked
  else .BLEND_Translucent

/-- The function `ChooseBlendModeFromOpacityMap`: the texture pointer is dereferenced, the
pixel format is checked, the pixels are counted and the counts are classified. -/
def ChooseBlendModeFromOpacityMap (OpacityMapData : FTextureData) (UseAlphaAsOpacity : Bool) :
    Option EBlendMode :=
  match OpacityMapData.Texture with
  | none => none
  | some OpacityMap =>
    match OpacityMapPixelCounts OpacityMap UseAlphaAsOpacity with
    | none => none
    | some (BlackPixels, WhitePixels) =>
      let TotalPixels := toUInt32 (wrapInt32 (OpacityMap.SizeX * OpacityMap.SizeY))
      some (ClassifyCounts TotalPixels BlackPixels WhitePixels)

/-- The function `ChooseBlendMode`. -/
def ChooseBlendMode (OpacityMapData : FTextureData) (Opacity : Double) (BlendMode : EBlendMode)
    (UseAlphaAsOpacity : Bool) : Option EBlendMode :=
  if Double.lt Opacity (.Pos OPACITY_THRESHOLD) then some .BLEND_Translucent
  else if BlendMode = .BLEND_Masked then some .BLEND_Masked
  else if BlendMode = .BLEND_Translucent ∧ OpacityMapData.Texture.isSome then
    ChooseBlendModeFromOpacityMap OpacityMapData UseAlphaAsOpacity
  else some .BLEND_Opaque

/-- The function `GetBlendMode`. -/
def GetBlendMode (OpacityMapMode : String) : EBlendMode :=
  if FStringEquals OpacityMapMode "mask" then .BLEND_Masked
  else if FStringEquals OpacityMapMode "blend" then .BLEND_Translucent
  else .BLEND_Opaque


/-! ## MeshCache.cpp -/

/-- The handle type `TSharedPtr<FVitruvioMesh>`: `none` is the empty (null) handle, `some p` refers to the mesh
object `p`; two handles are identical when they refer to the same object. -/
abbrev MeshHandle := Option Nat

/-- The engine container `TMap<FString, V>`: its entries in insertion order, at most one per
key. -/
structure TMap (V : Type) where
  Pairs : List (String × V)
  deriving DecidableEq, Repr

namespace TMap

variable {V : Type}

/-- The method `TMap::Find`: the value stored for `Key`, if any. -/
def Find (self : TMap V) (Key : String) : Option V := self.Pairs.lookup Key

/-- The method `TMap::Contains`. -/
def Contains (self : TMap V) (Key : String) : Bool := (self.Find Key).isSome

/-- The operator `TMap::operator[]`: the value stored for a key that is present. -/
def Index (self : TMap V) (Key : String) (h : self.Contains Key = true) : V :=
  (self.Find Key).get h

/-- The method `TMap::Add`: replaces the value of a key that is present, appends the entry otherwise. -/
def Add (self : TMap V) (Key : String) (Value : V) : TMap V :=
  if self.Contains Key then
    ⟨self.Pairs.map (fun p => if p.1 = Key then (Key, Value) else p)⟩
  else ⟨self.Pairs ++ [(Key, Value)]⟩

end TMap

/-- The state of `FMeshCache`: the member `Cache`.  Each method holds
`MeshCacheCriticalSection` for its whole body, so a call is one atomic step on this state. -/
structure FMeshCache where
  Cache : TMap MeshHandle
  deriving DecidableEq, Repr

namespace FMeshCache

/-- The method `FMeshCache::Get`: the returned handle and the state after the call. -/
def Get (self : FMeshCache) (Uri : String) : MeshHandle × FMeshCache :=
  if h : ¬ self.Cache.Contains Uri = true then (none, self)
  else (self.Cache.Index Uri (Decidable.of_not_not h), self)

/-- The method `FMeshCache::InsertOrGet`: the returned handle and the state after the call. -/
def InsertOrGet (self : FMeshCache) (Uri : String) (Mesh : MeshHandle) :
    MeshHandle × FMeshCache :=
  if h : self.Cache.Contains Uri = true then (self.Cache.Index Uri h, self)
  else (Mesh, ⟨self.Cache.Add Uri Mesh⟩)

end FMeshCache

/-- One call on the mesh cache. -/
inductive CacheOp where
  | Get (Uri : String)
  | InsertOrGet (Uri : String) (Mesh : MeshHandle)
  deriving DecidableEq, Repr

/-- The state after one call. -/
def FMeshCache.step (self : FMeshCache) : CacheOp → FMeshCache
  | .Get Uri => (self.Get Uri).2
  | .InsertOrGet Uri Mesh => (self.InsertOrGet Uri Mesh).2

/-- The state after a sequence of calls, each run to completion before the next. -/
def FMeshCache.run (self : FMeshCache) (ops : List CacheOp) : FMeshCache :=
  ops.foldl FMeshCache.step self

/-- The template `CountOpacityMapPixels` with its two reference parameters made explicit:
`Out` is the pair `(BlackPixels, WhitePixels)` the caller's variables hold on entry, the result
is the pair they hold on return. -/
def CountOpacityMapPixels_ref {T : Type} (SrcColors : List T) (SizeX SizeY : Int)
    (Out : Nat × Nat) (Accessor : T → Dyadic) : Nat × Nat :=
  let Out := (0, Out.2)
  let Out := (Out.1, 0)
  ((SrcColors.take (wrapInt32 (SizeX * SizeY)).toNat).map Accessor).foldl CountStep Out

/-! ## VitruvioTypes.h -/

namespace Double

/-- IEEE `a == b`: false when either side is NaN, the two zeros are equal. -/
def eq (a b : Double) : Bool :=
  match a, b with
  | NaN, _ => false
  | _, NaN => false
  | a, b => !(lt a b) && !(lt b a)

end Double

/-- Modelled from the spec: the engine type `FLinearColor` (a linear color, four `float`
components) is not part of the repository. -/
structure FLinearColor where
  R : Double
  G : Double
  B : Double
  A : Double
  deriving DecidableEq, Repr

/-- Modelled from the spec: the comparison `==` of the engine type `FLinearColor`, component by
component. -/
def FLinearColor.eq (x y : FLinearColor) : Bool :=
  Double.eq x.R y.R && Double.eq x.G y.G && Double.eq x.B y.B && Double.eq x.A y.A

namespace TMap

variable {V : Type}

/-- The method `TMap::Num`. -/
def Num (self : TMap V) : Nat := self.Pairs.length

/-- Modelled from the spec: the engine method `TMap::OrderIndependentCompareEqual` is not part
of the repository; two maps compare equal when they hold the same number of entries and every
key of the first is found in the second with a value that compares equal (`eqV` is the `==` of
the value type). -/
def OrderIndependentCompareEqual (eqV : V → V → Bool) (self Other : TMap V) : Bool :=
  if self.Num ≠ Other.Num then false
  else self.Pairs.all (fun It =>
    match Other.Find It.1 with
    | none => false
    | some BVal => eqV BVal It.2)

end TMap

/-- The descriptor `struct FMaterialAttributeContainer`. -/
structure FMaterialAttributeContainer where
  TextureProperties : TMap String
  ColorProperties : TMap FLinearColor
  ScalarProperties : TMap Double
  StringProperties : TMap String
  BlendMode : String
  Name : String
  deriving DecidableEq, Repr

namespace FMaterialAttributeContainer

/-- The operator `operator==` of `FMaterialAttributeContainer`. -/
def operatorEq (Lhs RHS : FMaterialAttributeContainer) : Bool :=
  TMap.OrderIndependentCompareEqual FStringEquals Lhs.TextureProperties RHS.TextureProperties &&
    TMap.OrderIndependentCompareEqual FLinearColor.eq Lhs.ColorProperties RHS.ColorProperties &&
    TMap.OrderIndependentCompareEqual Double.eq Lhs.ScalarProperties RHS.ScalarProperties &&
    TMap.OrderIndependentCompareEqual FStringEquals Lhs.StringProperties RHS.StringProperties &&
    FStringEquals Lhs.BlendMode RHS.BlendMode

/-- The operator `operator!=` of `FMaterialAttributeContainer`. -/
def operatorNe (Lhs RHS : FMaterialAttributeContainer) : Bool := !(operatorEq Lhs RHS)

end FMaterialAttributeContainer

/-- Modelled from the spec: the comparison `==` of the engine container `TArray`, which is not
part of the repository: equal lengths and elements that compare equal position by position. -/
def TArrayEq {T : Type} (eqT : T → T → Bool) : List T → List T → Bool
  | [], [] => true
  | x :: xs, y :: ys => eqT x y && TArrayEq eqT xs ys
  | _, _ => false

/-- The key `struct FInstanceCacheKey`. -/
structure FInstanceCacheKey where
  PrototypeId : Int
  MaterialOverrides : List FMaterialAttributeContainer
  deriving DecidableEq, Repr

namespace FInstanceCacheKey

/-- The operator `operator==` of `FInstanceCacheKey`. -/
def operatorEq (Lhs RHS : FInstanceCacheKey) : Bool :=
  decide (Lhs.PrototypeId = RHS.PrototypeId) &&
    TArrayEq FMaterialAttributeContainer.operatorEq Lhs.MaterialOverrides RHS.MaterialOverrides

/-- The operator `operator!=` of `FInstanceCacheKey`. -/
def operatorNe (Lhs RHS : FInstanceCacheKey) : Bool := !(operatorEq Lhs RHS)

end FInstanceCacheKey

/-! ## MaterialConversion.cpp: textures and material instances -/

/-- The formats of the engine enumeration `ERGBFormat`. -/
inductive ERGBFormat where
  | Invalid
  | RGBA
  | BGRA
  | Gray
  deriving DecidableEq, Repr

/-- The container formats of `EImageFormat`: the source names `Invalid` only, every recognized
format is `Recognized`. -/
inductive EImageFormat where
  | Invalid
  | Recognized (code : Nat)
  deriving DecidableEq, Repr

/-- The settings `struct FTextureSettings`. -/
structure FTextureSettings where
  SRGB : Bool
  Compression : TextureCompressionSettings
  deriving DecidableEq, Repr

/-- The function `GetRequestedFormat`. -/
def GetRequestedFormat (Format : ERGBFormat) : ERGBFormat :=
  match Format with
  | .RGBA => .BGRA
  | .BGRA => .BGRA
  | .Gray => .BGRA
  | _ => .Invalid

/-- The function `PixelFormatFromRGB`; `none` when one of its two `check`s fails. -/
def PixelFormatFromRGB (Format : ERGBFormat) (BitDepth : Int) : Option EPixelFormat :=
  if ¬ (BitDepth = 8 ∨ BitDepth = 16) then none
  else if ¬ (Format ≠ .RGBA) then none
  else
    match Format with
    | .BGRA => some .PF_B8G8R8A8
    | .Gray => some (if BitDepth = 8 then .PF_G8 else .PF_G16)
    | _ => some .PF_Unknown

/-- The function `GetTextureSettings`. -/
def GetTextureSettings (Key : String) (Format : ERGBFormat) : FTextureSettings :=
  if FStringEquals Key "normalMap" then ⟨false, .TC_Normalmap⟩
  else if FStringEquals Key "roughnessMap" ∨ FStringEquals Key "metallicMap" then
    ⟨false, .TC_Masks⟩
  else ⟨if Format = .Gray then false else true, .TC_Default⟩

/-- The function `CreateTexture`: the new texture with its platform data, settings and the
uploaded bytes; `none` when a `check` of `PixelFormatFromRGB` fails.  The object name is not
modelled. -/
def CreateTexture (Data : List Nat) (SizeX SizeY : Int) (Format : ERGBFormat) (BitDepth : Int)
    (TextureKey : String) : Option UTexture2D :=
  match PixelFormatFromRGB Format BitDepth with
  | none => none
  | some PixelFormat =>
    let Settings := GetTextureSettings TextureKey Format
    some ⟨SizeX, SizeY, PixelFormat, Data, Settings.Compression, Settings.SRGB⟩

/-- An image wrapper after `SetCompressed`: what `GetFormat`, `GetBitDepth`, `GetWidth`,
`GetHeight` report and the bytes `GetRaw` delivers for a requested format and bit depth. -/
structure FImageWrapper where
  GetFormat : ERGBFormat
  GetBitDepth : Int
  GetWidth : Int
  GetHeight : Int
  GetRaw : ERGBFormat → Int → List Nat

/-- The services outside the repository that the loader and the instantiator call: the file
system, the image wrapper module (a valid wrapper maps the compressed bytes to its state after
`SetCompressed`), `Vitruvio::DetectChannels`, `FPaths::GetBaseFilename`, `LoadObject<UMaterial>`
(`none` is the null pointer) and `IsInGameThread`. -/
structure FPlatform where
  FileExists : String → Bool
  LoadFileToArray : String → Option (List Nat)
  DetectImageFormat : List Nat → EImageFormat
  CreateImageWrapper : EImageFormat → Option (List Nat → FImageWrapper)
  DetectChannels : EImageFormat → List Nat → Nat
  GetBaseFilename : String → String
  LoadObject : String → Option Nat
  IsInGameThread : Bool

/-- The function `LoadTextureFromDisk`; `none` when a `check` fails. -/
def LoadTextureFromDisk (P : FPlatform) (ImagePath TextureKey : String) : Option FTextureData :=
  if ¬ P.FileExists ImagePath = true then some {}
  else
    match P.LoadFileToArray ImagePath with
    | none => some {}
    | some FileData =>
      let ImageFormat := P.DetectImageFormat FileData
      if ImageFormat = .Invalid then some {}
      else
        match P.CreateImageWrapper ImageFormat with
        | none => some {}
        | some Wrapper =>
          let NumChannels := P.DetectChannels ImageFormat FileData
          let ImageWrapper := Wrapper FileData
          let Format := GetRequestedFormat ImageWrapper.GetFormat
          let RawData := ImageWrapper.GetRaw Format ImageWrapper.GetBitDepth
          match CreateTexture RawData ImageWrapper.GetWidth ImageWrapper.GetHeight Format
              ImageWrapper.GetBitDepth TextureKey with
          | none => none
          | some Texture => some ⟨some Texture, NumChannels⟩

/-- The function `GetMaterialByBlendMode`. -/
def GetMaterialByBlendMode (Mode : EBlendMode) (Opaque Masked Translucent : Option Nat) :
    Option Nat :=
  match Mode with
  | .BLEND_Translucent => Translucent
  | .BLEND_Masked => Masked
  | _ => Opaque

/-- The constant `CE_DEFAULT_SHADER_NAME`. -/
def CE_DEFAULT_SHADER_NAME : String := "CityEngineShader"

/-- The constant `CE_PBR_SHADER_NAME`. -/
def CE_PBR_SHADER_NAME : String := "CityEnginePBRShader"

/-- Conversion of a non-negative `double` value to `float` (round to nearest, ties to even,
with the subnormal range); `none` when the result is infinite. -/
def toFloat32 (x : Dyadic) : Option Dyadic :=
  let n := x.m * 2 ^ x.e.toNat
  let d := 2 ^ (-x.e).toNat
  if n = 0 then some ⟨0, 0⟩
  else
    let e : Int := max (ilog2 n d - 23) (-149)
    let m := halfEven (n * 2 ^ (-e).toNat) (d * 2 ^ e.toNat)
    if 105 ≤ e ∨ (e = 104 ∧ m = 2 ^ 24) then none else some ⟨m, e⟩

/-- Conversion `double -> float`, as in `const float Opacity = ...` and in the `float`
parameter of `SetScalarParameterValue`. -/
def Double.toFloat : Double → Double
  | .Pos x =>
    match toFloat32 x with
    | some y => .Pos y
    | none => .PosInf
  | .Neg x =>
    match toFloat32 x with
    | some y => .Neg y
    | none => .NegInf
  | d => d

/-- The body of one asynchronous texture task of `GameThread_CreateMaterialInstance`, for the
entry `TextureProperty` of the descriptor; `none` when a `check` fails in the task. -/
def LoadTextureTask (P : FPlatform) (TextureProperty : String × String) :
    Option FTextureData :=
  if TextureProperty.2 = "" then some {}
  else LoadTextureFromDisk P TextureProperty.2 TextureProperty.1

/-- The first loop of `GameThread_CreateMaterialInstance`: the map from texture key to the
outcome of its task (the value its future delivers). -/
def LoadTextures (P : FPlatform) (MaterialContainer : FMaterialAttributeContainer) :
    TMap (Option FTextureData) :=
  MaterialContainer.TextureProperties.Pairs.foldl
    (fun TextureProperties TextureProperty =>
      TextureProperties.Add TextureProperty.1 (LoadTextureTask P TextureProperty))
    ⟨[]⟩

/-- The material instance `GameThread_CreateMaterialInstance` creates: its parent and the
parameter values set on it. -/
structure UMaterialInstanceDynamic where
  Parent : Option Nat
  ScalarParameterValues : TMap Double
  TextureParameterValues : TMap (Option UTexture2D)
  VectorParameterValues : TMap FLinearColor

/-- The part of `GameThread_CreateMaterialInstance` that ends with the choice of the blend
mode: the delivered texture descriptors, `UseAlphaAsOpacity` and `ChosenBlendMode`; `none` when
a `check` fails (off the game thread, in a texture task, on a missing "opacity" scalar, or in
the histogram classifier). -/
def ResolveBlendMode (P : FPlatform) (MaterialContainer : FMaterialAttributeContainer) :
    Option (TMap FTextureData × Bool × EBlendMode) :=
  if ¬ P.IsInGameThread = true then none
  else
    let TextureProperties := LoadTextures P MaterialContainer
    match TextureProperties.Pairs.mapM
        (fun Future => Future.2.map (fun Result => (Future.1, Result))) with
    | none => none
    | some Delivered =>
      match MaterialContainer.ScalarProperties.Find "opacity" with
      | none => none
      | some OpacityValue =>
        let Opacity := Double.toFloat OpacityValue
        let OpacityMapData : FTextureData :=
          match (TMap.mk Delivered).Find "opacityMap" with
          | some Result => Result
          | none => {}
        let UseAlphaAsOpacity :=
          OpacityMapData.Texture.isSome && OpacityMapData.NumChannels == 4
        match ChooseBlendMode OpacityMapData Opacity (GetBlendMode MaterialContainer.BlendMode)
            UseAlphaAsOpacity with
        | none => none
        | some ChosenBlendMode => some (⟨Delivered⟩, UseAlphaAsOpacity, ChosenBlendMode)

/-- The function `GameThread_CreateMaterialInstance`: the created instance and the list of
paths `LoadObject` was called with; `none` when a `check` fails. -/
def GameThread_CreateMaterialInstance (P : FPlatform)
    (OpaqueParent MaskedParent TranslucentParent : Option Nat)
    (MaterialContainer : FMaterialAttributeContainer) :
    Option (UMaterialInstanceDynamic × List String) :=
  match ResolveBlendMode P MaterialContainer with
  | none => none
  | some (TextureProperties, UseAlphaAsOpacity, ChosenBlendMode) =>
    match MaterialContainer.StringProperties.Find "shader" with
    | none => none
    | some Shader =>
      let Loaded : Option Nat × List String :=
        if ¬ Shader = "" ∧ ¬ FStringEquals Shader CE_DEFAULT_SHADER_NAME = true ∧
            ¬ FStringEquals Shader CE_PBR_SHADER_NAME = true then
          let FileName := P.GetBaseFilename Shader
          let ParentMaterialPath := Shader ++ "." ++ FileName
          (P.LoadObject ParentMaterialPath, [ParentMaterialPath])
        else (none, [])
      let Parent : Option Nat :=
        match Loaded.1 with
        | some Material => some Material
        | none => GetMaterialByBlendMode ChosenBlendMode OpaqueParent MaskedParent
            TranslucentParent
      let Scalars : TMap Double :=
        MaterialContainer.ScalarProperties.Pairs.foldl
          (fun Values ScalarProperty =>
            Values.Add ScalarProperty.1 (Double.toFloat ScalarProperty.2))
          ((⟨[]⟩ : TMap Double).Add "opacitySource"
            (.Pos (Dyadic.ofNat (if UseAlphaAsOpacity then 1 else 0))))
      let Textures : TMap (Option UTexture2D) :=
        TextureProperties.Pairs.foldl
          (fun Values TextureFuture => Values.Add TextureFuture.1 TextureFuture.2.Texture)
          ⟨[]⟩
      let Vectors : TMap FLinearColor :=
        MaterialContainer.ColorProperties.Pairs.foldl
          (fun Values ColorProperty => Values.Add ColorProperty.1 ColorProperty.2)
          ⟨[]⟩
      some (⟨Parent, Scalars, Textures, Vectors⟩, Loaded.2)

/-- A platform with one image file, "image.png", whose wrapper reports the given format, bit
depth, size and bytes, and without any material asset. -/
def SingleImagePlatform (Format : ERGBFormat) (BitDepth : Int) (NumChannels : Nat)
    (Width Height : Int) (Raw : List Nat) : FPlatform where
  FileExists := fun Path => decide (Path = "image.png")
  LoadFileToArray := fun Path => if Path = "image.png" then some [137, 80, 78, 71] else none
  DetectImageFormat := fun _ => .Recognized 0
  CreateImageWrapper := fun _ =>
    some (fun _ => ⟨Format, BitDepth, Width, Height, fun _ _ => Raw⟩)
  DetectChannels := fun _ _ => NumChannels
  GetBaseFilename := fun Path => Path
  LoadObject := fun _ => none
  IsInGameThread := true

/-! ## Descriptor identity and instance grouping -/

/-- The invariant of the engine container `TMap`: at most one entry per key. -/
def TMap.UniqueKeys {V : Type} (self : TMap V) : Prop := (self.Pairs.map Prod.fst).Nodup

/-- Two maps are identical as key-to-value mappings, whatever the order of their entries: every
key is absent from both, or present in both with values that compare equal under `eqV`. -/
def TMap.SameMapping {V : Type} (eqV : V → V → Bool) (self Other : TMap V) : Prop :=
  ∀ Key : String, (self.Find Key = none ∧ Other.Find Key = none) ∨
    ∃ a b : V, self.Find Key = some a ∧ Other.Find Key = some b ∧ eqV b a = true

/-- Modelled from the spec: the code that fills the instance map `FInstanceMap` is not part of
the repository.  A placement joins the first group whose key compares equal to its key under
`operator==` (the hash is taken to be consistent with equality) and opens a new group behind
the others when there is none. -/
def AddPlacement : List (FInstanceCacheKey × List Nat) → FInstanceCacheKey → Nat →
    List (FInstanceCacheKey × List Nat)
  | [], Key, Transform => [(Key, [Transform])]
  | (Stored, Transforms) :: Rest, Key, Transform =>
    if FInstanceCacheKey.operatorEq Stored Key then (Stored, Transforms ++ [Transform]) :: Rest
    else (Stored, Transforms) :: AddPlacement Rest Key Transform

/-- A descriptor with one red color entry and the given display name. -/
def SampleDescriptor (Name : String) : FMaterialAttributeContainer :=
  ⟨⟨[]⟩, ⟨[("color", ⟨.Pos (Dyadic.ofNat 1), .Pos (Dyadic.ofNat 0), .Pos (Dyadic.ofNat 0),
    .Pos (Dyadic.ofNat 1)⟩)]⟩, ⟨[]⟩, ⟨[]⟩, "blend", Name⟩

/-! ## Rounding -/

theorem log2Fuel_spec : ∀ (fuel n : Nat), 0 < n → n ≤ fuel →
    2 ^ log2Fuel fuel n ≤ n ∧ n < 2 ^ (log2Fuel fuel n + 1)
  | 0, n, h0, h => by omega
  | fuel + 1, n, h0, h => by
    unfold log2Fuel
    split_ifs with h2
    · constructor <;> simp <;> omega
    · have ih := log2Fuel_spec fuel (n / 2) (by omega) (by omega)
      obtain ⟨ih1, ih2⟩ := ih
      constructor
      · rw [pow_succ]; omega
      · rw [pow_succ]; omega

theorem two_zpow_toNat (e : Int) :
    ((2 : ℚ) ^ e.toNat) = (2 : ℚ) ^ e * (2 : ℚ) ^ (-e).toNat := by
  rcases le_total 0 e with h | h
  · have h1 : (-e).toNat = 0 := by omega
    rw [h1, pow_zero, mul_one]
    conv_rhs => rw [← Int.toNat_of_nonneg h]
    rw [zpow_natCast]
  · have h1 : e.toNat = 0 := by omega
    rw [h1, pow_zero]
    have h2 : e = -((-e).toNat : Int) := by omega
    conv_rhs => rw [h2]
    rw [zpow_neg, zpow_natCast]
    have : (-(-((-e).toNat : Int))).toNat = (-e).toNat := by omega
    rw [this]
    field_simp

theorem ilog2_spec (n d : Nat) (hn : 0 < n) (hd : 0 < d) :
    (2 : ℚ) ^ ilog2 n d ≤ (n : ℚ) / d ∧ (n : ℚ) / d < (2 : ℚ) ^ (ilog2 n d + 1) := by
  obtain ⟨a1, a2⟩ := log2Fuel_spec n n hn le_rfl
  obtain ⟨b1, b2⟩ := log2Fuel_spec d d hd le_rfl
  have hdq : (0 : ℚ) < d := by exact_mod_cast hd
  have a1q : (2 : ℚ) ^ (log2Fuel n n : Int) ≤ n := by rw [zpow_natCast]; exact_mod_cast a1
  have a2q : (n : ℚ) < (2 : ℚ) ^ ((log2Fuel n n : Int) + 1) := by
    rw [show ((log2Fuel n n : Int) + 1) = ((log2Fuel n n + 1 : Nat) : Int) by push_cast; ring, zpow_natCast]
    exact_mod_cast a2
  have b1q : (2 : ℚ) ^ (log2Fuel d d : Int) ≤ d := by rw [zpow_natCast]; exact_mod_cast b1
  have b2q : (d : ℚ) < (2 : ℚ) ^ ((log2Fuel d d : Int) + 1) := by
    rw [show ((log2Fuel d d : Int) + 1) = ((log2Fuel d d + 1 : Nat) : Int) by push_cast; ring, zpow_natCast]
    exact_mod_cast b2
  have h2 : (0 : ℚ) < 2 := by norm_num
  unfold ilog2
  simp only []
  set k : Int := (log2Fuel n n : Int) - (log2Fuel d d : Int) with hk
  have hpk : (0 : ℚ) < 2 ^ k := zpow_pos h2 k
  have hpn : (0 : ℚ) < 2 ^ (-k).toNat := by positivity
  have key : (d * 2 ^ k.toNat ≤ n * 2 ^ (-k).toNat) ↔ (2 : ℚ) ^ k ≤ (n : ℚ) / d := by
    rw [le_div_iff₀ hdq]
    have : (d * 2 ^ k.toNat ≤ n * 2 ^ (-k).toNat) ↔
        ((d : ℚ) * 2 ^ k.toNat ≤ (n : ℚ) * 2 ^ (-k).toNat) := by
      constructor
      · intro h; exact_mod_cast h
      · intro h; exact_mod_cast h
    rw [this, two_zpow_toNat k]
    constructor
    · intro h
      have : (2 : ℚ) ^ k * d * 2 ^ (-k).toNat ≤ n * 2 ^ (-k).toNat := by linarith
      exact le_of_mul_le_mul_right this hpn
    · intro h
      have := mul_le_mul_of_nonneg_right h hpn.le
      linarith
  split_ifs with hc
  · refine ⟨key.mp hc, ?_⟩
    rw [div_lt_iff₀ hdq]
    have e1 : (2 : ℚ) ^ (k + 1) * 2 ^ (log2Fuel d d : Int) = 2 ^ ((log2Fuel n n : Int) + 1) := by
      rw [← zpow_add₀ (by norm_num : (2 : ℚ) ≠ 0)]; congr 1; omega
    have hp1 : (0 : ℚ) < 2 ^ (k + 1) := zpow_pos h2 _
    calc (n : ℚ) < 2 ^ ((log2Fuel n n : Int) + 1) := a2q
      _ = 2 ^ (k + 1) * 2 ^ (log2Fuel d d : Int) := e1.symm
      _ ≤ 2 ^ (k + 1) * d := by exact mul_le_mul_of_nonneg_left b1q hp1.le
  · have hlt : (n : ℚ) / d < 2 ^ k := by
      rw [← not_le]; exact fun h => hc (key.mpr h)
    refine ⟨?_, by simpa using hlt⟩
    rw [le_div_iff₀ hdq]
    have e1 : (2 : ℚ) ^ (k - 1) * 2 ^ ((log2Fuel d d : Int) + 1) = 2 ^ (log2Fuel n n : Int) := by
      rw [← zpow_add₀ (by norm_num : (2 : ℚ) ≠ 0)]; congr 1; omega
    have hp1 : (0 : ℚ) < 2 ^ (k - 1) := zpow_pos h2 _
    calc (2 : ℚ) ^ (k - 1) * d ≤ 2 ^ (k - 1) * 2 ^ ((log2Fuel d d : Int) + 1) :=
          mul_le_mul_of_nonneg_left b2q.le hp1.le
      _ = 2 ^ (log2Fuel n n : Int) := e1
      _ ≤ n := a1q

theorem halfEven_le (N D Y : Nat) (hD : 0 < D) (h : N ≤ Y * D) : halfEven N D ≤ Y := by
  have hq : N / D ≤ Y := by
    calc N / D ≤ Y * D / D := Nat.div_le_div_right h
      _ = Y := Nat.mul_div_cancel _ hD
  have hdm := Nat.div_add_mod N D
  have hcase : N / D = Y → N % D = 0 := by
    intro he
    rw [he] at hdm
    have : D * Y = Y * D := Nat.mul_comm _ _
    omega
  unfold halfEven
  simp only []
  split_ifs <;> first | exact hq | skip
  all_goals
    rcases Nat.lt_or_ge (N / D) Y with h1 | h1
    · omega
    · have := hcase (le_antisymm hq h1); omega

theorem le_halfEven (N D Y : Nat) (hD : 0 < D) (h : Y * D ≤ N) : Y ≤ halfEven N D := by
  have hq : Y ≤ N / D := (Nat.le_div_iff_mul_le hD).mpr h
  unfold halfEven
  simp only []
  split_ifs <;> omega

theorem scaled_le_iff (n d : Nat) (hd : 0 < d) (e : Int) (Y : Nat) :
    (n * 2 ^ (-e).toNat ≤ Y * (d * 2 ^ e.toNat)) ↔ (n : ℚ) / d ≤ (Y : ℚ) * (2 : ℚ) ^ e := by
  have hdq : (0 : ℚ) < d := by exact_mod_cast hd
  have hpn : (0 : ℚ) < 2 ^ (-e).toNat := by positivity
  have hcast : (n * 2 ^ (-e).toNat ≤ Y * (d * 2 ^ e.toNat)) ↔
      ((n : ℚ) * 2 ^ (-e).toNat ≤ (Y : ℚ) * ((d : ℚ) * 2 ^ e.toNat)) := by
    constructor
    · intro h; exact_mod_cast h
    · intro h; exact_mod_cast h
  rw [hcast, two_zpow_toNat e, div_le_iff₀ hdq]
  constructor
  · intro h
    have : (n : ℚ) * 2 ^ (-e).toNat ≤ ((Y : ℚ) * 2 ^ e * d) * 2 ^ (-e).toNat := by linarith
    exact le_of_mul_le_mul_right this hpn
  · intro h
    have := mul_le_mul_of_nonneg_right h hpn.le
    linarith

theorem le_scaled_iff (n d : Nat) (hd : 0 < d) (e : Int) (Y : Nat) :
    (Y * (d * 2 ^ e.toNat) ≤ n * 2 ^ (-e).toNat) ↔ (Y : ℚ) * (2 : ℚ) ^ e ≤ (n : ℚ) / d := by
  have hdq : (0 : ℚ) < d := by exact_mod_cast hd
  have hpn : (0 : ℚ) < 2 ^ (-e).toNat := by positivity
  have hcast : (Y * (d * 2 ^ e.toNat) ≤ n * 2 ^ (-e).toNat) ↔
      ((Y : ℚ) * ((d : ℚ) * 2 ^ e.toNat) ≤ (n : ℚ) * 2 ^ (-e).toNat) := by
    constructor
    · intro h; exact_mod_cast h
    · intro h; exact_mod_cast h
  rw [hcast, two_zpow_toNat e, le_div_iff₀ hdq]
  constructor
  · intro h
    have : ((Y : ℚ) * 2 ^ e * d) * 2 ^ (-e).toNat ≤ (n : ℚ) * 2 ^ (-e).toNat := by linarith
    exact le_of_mul_le_mul_right this hpn
  · intro h
    have := mul_le_mul_of_nonneg_right h hpn.le
    linarith

/-- Rounding never exceeds a representable upper bound of the exact value. -/
theorem roundNE_le (p n d : Nat) (hd : 0 < d) (a : Nat) (f : Int) (ha : a < 2 ^ p)
    (h : (n : ℚ) / d ≤ (a : ℚ) * (2 : ℚ) ^ f) :
    (roundNE p n d).toRat ≤ (a : ℚ) * (2 : ℚ) ^ f := by
  have h2 : (0 : ℚ) < 2 := by norm_num
  unfold roundNE
  split_ifs with hn
  · simp only [Dyadic.toRat]
    have : (0 : ℚ) ≤ (a : ℚ) * 2 ^ f := mul_nonneg (by positivity) (zpow_pos h2 f).le
    simpa using this
  · have hn' : 0 < n := Nat.pos_of_ne_zero hn
    obtain ⟨l1, _⟩ := ilog2_spec n d hn' hd
    simp only [Dyadic.toRat]
    set e : Int := ilog2 n d - ((p : Int) - 1) with he
    have haq : (a : ℚ) < (2 : ℚ) ^ (p : Int) := by rw [zpow_natCast]; exact_mod_cast ha
    have hlt : (2 : ℚ) ^ ilog2 n d < (2 : ℚ) ^ ((p : Int) + f) := by
      calc (2 : ℚ) ^ ilog2 n d ≤ (n : ℚ) / d := l1
        _ ≤ (a : ℚ) * 2 ^ f := h
        _ < 2 ^ (p : Int) * 2 ^ f := mul_lt_mul_of_pos_right haq (zpow_pos h2 f)
        _ = 2 ^ ((p : Int) + f) := (zpow_add₀ (by norm_num) _ _).symm
    have hef : e ≤ f := by
      have := (zpow_lt_zpow_iff_right₀ (by norm_num : (1 : ℚ) < 2)).mp hlt
      omega
    have hY : (a : ℚ) * 2 ^ f = ((a * 2 ^ (f - e).toNat : Nat) : ℚ) * 2 ^ e := by
      push_cast
      rw [mul_assoc, ← zpow_natCast, ← zpow_add₀ (by norm_num : (2 : ℚ) ≠ 0)]
      congr 2; omega
    rw [hY] at h ⊢
    have := halfEven_le _ _ _ (by positivity) ((scaled_le_iff n d hd e _).mpr h)
    exact mul_le_mul_of_nonneg_right (by exact_mod_cast this) (zpow_pos h2 e).le

/-- Rounding never falls below a representable lower bound of the exact value. -/
theorem le_roundNE (p n d : Nat) (hp : 0 < p) (hd : 0 < d) (a : Nat) (f : Int) (ha : a < 2 ^ p)
    (h : (a : ℚ) * (2 : ℚ) ^ f ≤ (n : ℚ) / d) :
    (a : ℚ) * (2 : ℚ) ^ f ≤ (roundNE p n d).toRat := by
  have h2 : (0 : ℚ) < 2 := by norm_num
  unfold roundNE
  split_ifs with hn
  · simp only [Dyadic.toRat]
    subst hn
    simpa using h
  · have hn' : 0 < n := Nat.pos_of_ne_zero hn
    obtain ⟨l1, _⟩ := ilog2_spec n d hn' hd
    simp only [Dyadic.toRat]
    set e : Int := ilog2 n d - ((p : Int) - 1) with he
    have hpe : (0 : ℚ) < 2 ^ e := zpow_pos h2 e
    rcases le_or_lt e f with hef | hfe
    · have hY : (a : ℚ) * 2 ^ f = ((a * 2 ^ (f - e).toNat : Nat) : ℚ) * 2 ^ e := by
        push_cast
        rw [mul_assoc, ← zpow_natCast, ← zpow_add₀ (by norm_num : (2 : ℚ) ≠ 0)]
        congr 2; omega
      rw [hY] at h ⊢
      have := le_halfEven _ _ _ (by positivity) ((le_scaled_iff n d hd e _).mpr h)
      exact mul_le_mul_of_nonneg_right (by exact_mod_cast this) hpe.le
    · have hb : ((2 ^ (p - 1) : Nat) : ℚ) * 2 ^ e ≤ (n : ℚ) / d := by
        have : ((2 ^ (p - 1) : Nat) : ℚ) * 2 ^ e = 2 ^ ilog2 n d := by
          push_cast
          rw [← zpow_natCast, ← zpow_add₀ (by norm_num : (2 : ℚ) ≠ 0)]
          congr 1; omega
        rw [this]; exact l1
      have hm := le_halfEven _ _ _ (by positivity) ((le_scaled_iff n d hd e _).mpr hb)
      have hm' : ((2 ^ (p - 1) : Nat) : ℚ) * 2 ^ e ≤
          ((halfEven (n * 2 ^ (-e).toNat) (d * 2 ^ e.toNat) : Nat) : ℚ) * 2 ^ e :=
        mul_le_mul_of_nonneg_right (by exact_mod_cast hm) hpe.le
      have haq : (a : ℚ) ≤ (2 : ℚ) ^ (p : Int) := by
        rw [zpow_natCast]; exact_mod_cast ha.le
      have hle : (a : ℚ) * 2 ^ f ≤ ((2 ^ (p - 1) : Nat) : ℚ) * 2 ^ e := by
        calc (a : ℚ) * 2 ^ f ≤ 2 ^ (p : Int) * 2 ^ f :=
              mul_le_mul_of_nonneg_right haq (zpow_pos h2 f).le
          _ = 2 ^ ((p : Int) + f) := (zpow_add₀ (by norm_num) _ _).symm
          _ ≤ 2 ^ (((p - 1 : Nat) : Int) + e) :=
              (zpow_le_zpow_iff_right₀ (by norm_num : (1 : ℚ) < 2)).mpr (by omega)
          _ = ((2 ^ (p - 1) : Nat) : ℚ) * 2 ^ e := by
              push_cast
              rw [zpow_add₀ (by norm_num : (2 : ℚ) ≠ 0), zpow_natCast]
      exact hle.trans hm'

theorem Dyadic.aligned_toRat (x y : Dyadic) :
    (Dyadic.aligned x y : ℚ) * (2 : ℚ) ^ (min x.e y.e) = x.toRat := by
  unfold Dyadic.aligned Dyadic.toRat
  push_cast
  rw [mul_assoc, ← zpow_natCast, ← zpow_add₀ (by norm_num : (2 : ℚ) ≠ 0)]
  congr 2
  have := min_le_left x.e y.e
  omega

theorem Dyadic.le_iff (x y : Dyadic) : Dyadic.le x y = true ↔ x.toRat ≤ y.toRat := by
  have hp : (0 : ℚ) < (2 : ℚ) ^ (min x.e y.e) := zpow_pos (by norm_num) _
  have hx := Dyadic.aligned_toRat x y
  have hy := Dyadic.aligned_toRat y x
  rw [min_comm] at hy
  unfold Dyadic.le
  rw [decide_eq_true_iff, ← hx, ← hy]
  constructor
  · intro h
    exact mul_le_mul_of_nonneg_right (by exact_mod_cast h) hp.le
  · intro h
    exact_mod_cast le_of_mul_le_mul_right h hp

theorem Dyadic.lt_iff (x y : Dyadic) : Dyadic.lt x y = true ↔ x.toRat < y.toRat := by
  have hp : (0 : ℚ) < (2 : ℚ) ^ (min x.e y.e) := zpow_pos (by norm_num) _
  have hx := Dyadic.aligned_toRat x y
  have hy := Dyadic.aligned_toRat y x
  rw [min_comm] at hy
  unfold Dyadic.lt
  rw [decide_eq_true_iff, ← hx, ← hy]
  constructor
  · intro h
    exact mul_lt_mul_of_pos_right (by exact_mod_cast h) hp
  · intro h
    exact_mod_cast lt_of_mul_lt_mul_right h hp.le

theorem OPACITY_THRESHOLD_eq : OPACITY_THRESHOLD = ⟨8827055269646172, -53⟩ := by decide

/-- The product `TotalPixels * OPACITY_THRESHOLD` as the source computes it. -/
theorem dmul_threshold (T : Nat) :
    dmul (Dyadic.ofNat T) OPACITY_THRESHOLD = roundNE 53 (T * 8827055269646172) (2 ^ 53) := by
  rw [OPACITY_THRESHOLD_eq]
  simp [dmul, roundScaled, Dyadic.ofNat]

/-- On `uint32` operands the comparison `Count >= TotalPixels * OPACITY_THRESHOLD`, carried out
in `double` arithmetic, agrees with the exact comparison `Count >= TotalPixels * 98 / 100`. -/
theorem threshold_le_iff (T W : Nat) (hT : T < 2 ^ 32) (hW : W < 2 ^ 32) :
    Dyadic.le (dmul (Dyadic.ofNat T) OPACITY_THRESHOLD) (Dyadic.ofNat W) = true ↔
      98 * T ≤ 100 * W := by
  rw [Dyadic.le_iff, dmul_threshold]
  have hWr : (Dyadic.ofNat W).toRat = (W : ℚ) * (2 : ℚ) ^ (0 : Int) := by
    simp [Dyadic.ofNat, Dyadic.toRat]
  constructor
  · intro h
    by_contra hc
    have hlt : 100 * W + 1 ≤ 98 * T := by omega
    have hy : ((128 * W + 1 : Nat) : ℚ) * (2 : ℚ) ^ (-7 : Int) ≤
        ((T * 8827055269646172 : Nat) : ℚ) / ((2 ^ 53 : Nat) : ℚ) := by
      rw [le_div_iff₀ (by positivity)]
      have hnat : (128 * W + 1) * 2 ^ 53 ≤ 128 * (T * 8827055269646172) := by
        norm_num at hT hW ⊢
        omega
      have hq : (((128 * W + 1) * 2 ^ 53 : Nat) : ℚ) ≤ ((128 * (T * 8827055269646172) : Nat) : ℚ) := by
        exact_mod_cast hnat
      have e7 : (2 : ℚ) ^ (-7 : Int) = 1 / 128 := by norm_num [zpow_neg]
      rw [e7]
      push_cast at hq ⊢
      linarith
    have hr := le_roundNE 53 _ (2 ^ 53) (by norm_num) (by positivity) (128 * W + 1) (-7)
      (by norm_num at hW ⊢; omega) hy
    have hlt2 : (W : ℚ) < ((128 * W + 1 : Nat) : ℚ) * (2 : ℚ) ^ (-7 : Int) := by
      have e7 : (2 : ℚ) ^ (-7 : Int) = 1 / 128 := by norm_num [zpow_neg]
      rw [e7]; push_cast; linarith
    rw [hWr] at h
    simp only [zpow_zero, mul_one] at h
    linarith
  · intro h
    rw [hWr]
    apply roundNE_le 53 _ (2 ^ 53) (by positivity) W 0 (by norm_num at hW ⊢; omega)
    rw [div_le_iff₀ (by positivity)]
    have hnat : T * 8827055269646172 * 100 ≤ 100 * W * 2 ^ 53 := by
      norm_num
      omega
    have hq : ((T * 8827055269646172 * 100 : Nat) : ℚ) ≤ ((100 * W * 2 ^ 53 : Nat) : ℚ) := by
      exact_mod_cast hnat
    simp only [zpow_zero, mul_one]
    push_cast at hq ⊢
    linarith

theorem CountStep_sum_le (acc : Nat × Nat) (Value : Dyadic) :
    (CountStep acc Value).1 + (CountStep acc Value).2 ≤ acc.1 + acc.2 + 1 := by
  unfold CountStep
  split_ifs
  · have := Nat.mod_le (acc.1 + 1) (2 ^ 32); simp only []; omega
  · have := Nat.mod_le (acc.2 + 1) (2 ^ 32); simp only []; omega
  · omega

theorem foldl_CountStep_sum_le (Values : List Dyadic) (acc : Nat × Nat) :
    (Values.foldl CountStep acc).1 + (Values.foldl CountStep acc).2 ≤
      acc.1 + acc.2 + Values.length := by
  induction Values generalizing acc with
  | nil => simp
  | cons v vs ih =>
    have h1 := ih (CountStep acc v)
    have h2 := CountStep_sum_le acc v
    simp only [List.foldl_cons, List.length_cons]
    omega

/-- Each visited pixel is counted at most once. -/
theorem CountOpacityMapPixels_sum_le {T : Type} (SrcColors : List T) (SizeX SizeY : Int)
    (Accessor : T → Dyadic) :
    (CountOpacityMapPixels SrcColors SizeX SizeY Accessor).1 +
      (CountOpacityMapPixels SrcColors SizeX SizeY Accessor).2 ≤
      (wrapInt32 (SizeX * SizeY)).toNat := by
  unfold CountOpacityMapPixels
  have h := foldl_CountStep_sum_le
    ((SrcColors.take (wrapInt32 (SizeX * SizeY)).toNat).map Accessor) (0, 0)
  simp only [List.length_map, List.length_take] at h
  have := min_le_left (wrapInt32 (SizeX * SizeY)).toNat SrcColors.length
  omega

theorem OpacityMapPixelCounts_sum_le (OpacityMap : UTexture2D) (UseAlphaAsOpacity : Bool)
    (BlackPixels WhitePixels : Nat)
    (h : OpacityMapPixelCounts OpacityMap UseAlphaAsOpacity = some (BlackPixels, WhitePixels)) :
    BlackPixels + WhitePixels ≤ (wrapInt32 (OpacityMap.SizeX * OpacityMap.SizeY)).toNat := by
  unfold OpacityMapPixelCounts at h
  split at h
  · have := CountOpacityMapPixels_sum_le (asFColor OpacityMap.BulkData) OpacityMap.SizeX
      OpacityMap.SizeY (fun Color => fdivNat (if UseAlphaAsOpacity then Color.A else Color.R) 0xFF)
    simp only [Option.some.injEq] at h
    unfold CountOpacityMapPixels_FColor at h
    rw [h] at this; exact this
  · have := CountOpacityMapPixels_sum_le OpacityMap.BulkData OpacityMap.SizeX
      OpacityMap.SizeY (fun Color => fdivNat Color 0xFF)
    simp only [Option.some.injEq] at h
    unfold CountOpacityMapPixels_uint8 at h
    rw [h] at this; exact this
  · have := CountOpacityMapPixels_sum_le (asUInt16 OpacityMap.BulkData) OpacityMap.SizeX
      OpacityMap.SizeY (fun Color => fdivNat Color 0xFFFF)
    simp only [Option.some.injEq] at h
    unfold CountOpacityMapPixels_uint16 at h
    rw [h] at this; exact this
  · simp at h

theorem wrapInt32_of_range (z : Int) (h0 : 0 ≤ z) (h1 : z < 2 ^ 31) : wrapInt32 z = z := by
  unfold wrapInt32
  norm_num at h1 ⊢
  omega

theorem toUInt32_of_range (z : Int) (h0 : 0 ≤ z) (h1 : z < 2 ^ 31) : toUInt32 z = z.toNat := by
  unfold toUInt32
  norm_num at h1 ⊢
  omega

/-! ## The blend-mode resolver -/

theorem Double.lt_false_of_ge (a b : Double) (h : Double.ge a b = true) :
    Double.lt a b = false := by
  cases a <;> cases b <;> simp_all [Double.ge, Double.lt]

/-- A non-negative opacity whose exact value is at least `98 / 100` is not below
`OPACITY_THRESHOLD`, the `double` nearest to `0.98`. -/
theorem Double.ge_threshold_of_exact (x : Dyadic) (h : (98 : ℚ) / 100 ≤ x.toRat) :
    Double.ge (.Pos x) (.Pos OPACITY_THRESHOLD) = true := by
  have hc : OPACITY_THRESHOLD.toRat < (98 : ℚ) / 100 := by
    rw [OPACITY_THRESHOLD_eq]
    norm_num [Dyadic.toRat, zpow_neg]
  have hlt : Dyadic.lt x OPACITY_THRESHOLD = false := by
    rw [← Bool.not_eq_true, Dyadic.lt_iff]
    linarith
  simp [Double.ge, Double.lt, hlt]

theorem GetBlendMode_blend : GetBlendMode "blend" = .BLEND_Translucent := by decide

theorem GetBlendMode_mask : GetBlendMode "mask" = .BLEND_Masked := by decide

/-- With the hint "blend", an opacity not below the threshold, and a counted map whose size
does not overflow `int32`, the resolver returns the classification of the counts. -/
theorem ChooseBlendMode_blend_map (OpacityMap : UTexture2D) (NumChannels : Nat)
    (Opacity : Double) (UseAlphaAsOpacity : Bool) (BlackPixels WhitePixels : Nat)
    (hOpacity : Double.ge Opacity (.Pos OPACITY_THRESHOLD) = true)
    (hX : 0 ≤ OpacityMap.SizeX) (hY : 0 ≤ OpacityMap.SizeY)
    (hXY : OpacityMap.SizeX * OpacityMap.SizeY < 2 ^ 31)
    (hCounts : OpacityMapPixelCounts OpacityMap UseAlphaAsOpacity =
      some (BlackPixels, WhitePixels)) :
    ChooseBlendMode ⟨some OpacityMap, NumChannels⟩ Opacity (GetBlendMode "blend")
        UseAlphaAsOpacity =
      some (ClassifyCounts (OpacityMap.SizeX * OpacityMap.SizeY).toNat BlackPixels WhitePixels) := by
  have h0 : 0 ≤ OpacityMap.SizeX * OpacityMap.SizeY := mul_nonneg hX hY
  unfold ChooseBlendMode
  rw [Double.lt_false_of_ge _ _ hOpacity, GetBlendMode_blend]
  simp only [Bool.false_eq_true, if_false, reduceCtorEq, Option.isSome_some, and_self, if_true]
  unfold ChooseBlendModeFromOpacityMap
  simp only [hCounts]
  rw [wrapInt32_of_range _ h0 hXY, toUInt32_of_range _ h0 hXY]

/-- The classification of the counts, in exact arithmetic. -/
theorem ClassifyCounts_eq (TotalPixels BlackPixels WhitePixels : Nat)
    (hT : TotalPixels < 2 ^ 31) (hSum : BlackPixels + WhitePixels ≤ TotalPixels) :
    ClassifyCounts TotalPixels BlackPixels WhitePixels =
      if 98 * TotalPixels ≤ 100 * WhitePixels then .BLEND_Opaque
      else if 98 * TotalPixels ≤ 100 * (WhitePixels + BlackPixels) then .BLEND_Masked
      else .BLEND_Translucent := by
  have hmod : (WhitePixels + BlackPixels) % 2 ^ 32 = WhitePixels + BlackPixels := by
    apply Nat.mod_eq_of_lt
    norm_num at hT ⊢; omega
  have e1 := threshold_le_iff TotalPixels WhitePixels (by norm_num at hT ⊢; omega)
    (by norm_num at hT ⊢; omega)
  have e2 := threshold_le_iff TotalPixels (WhitePixels + BlackPixels)
    (by norm_num at hT ⊢; omega) (by norm_num at hT ⊢; omega)
  unfold ClassifyCounts
  rw [hmod]
  simp only [e1, e2]

/-- The resolver on a counted map, in exact arithmetic. -/
theorem ChooseBlendMode_blend_map_exact (OpacityMap : UTexture2D) (NumChannels : Nat)
    (Opacity : Double) (UseAlphaAsOpacity : Bool) (BlackPixels WhitePixels : Nat)
    (hOpacity : Double.ge Opacity (.Pos OPACITY_THRESHOLD) = true)
    (hX : 0 ≤ OpacityMap.SizeX) (hY : 0 ≤ OpacityMap.SizeY)
    (hXY : OpacityMap.SizeX * OpacityMap.SizeY < 2 ^ 31)
    (hCounts : OpacityMapPixelCounts OpacityMap UseAlphaAsOpacity =
      some (BlackPixels, WhitePixels)) :
    ChooseBlendMode ⟨some OpacityMap, NumChannels⟩ Opacity (GetBlendMode "blend")
        UseAlphaAsOpacity =
      some (if 98 * (OpacityMap.SizeX * OpacityMap.SizeY) ≤ 100 * (WhitePixels : Int)
        then .BLEND_Opaque
        else if 98 * (OpacityMap.SizeX * OpacityMap.SizeY) ≤
            100 * ((WhitePixels : Int) + (BlackPixels : Int))
        then .BLEND_Masked
        else .BLEND_Translucent) := by
  have h0 : 0 ≤ OpacityMap.SizeX * OpacityMap.SizeY := mul_nonneg hX hY
  have hsum := OpacityMapPixelCounts_sum_le OpacityMap UseAlphaAsOpacity _ _ hCounts
  rw [wrapInt32_of_range _ h0 hXY] at hsum
  rw [ChooseBlendMode_blend_map OpacityMap NumChannels Opacity UseAlphaAsOpacity BlackPixels
    WhitePixels hOpacity hX hY hXY hCounts]
  rw [ClassifyCounts_eq _ _ _ (by omega) hsum]
  congr 1
  have c1 : (98 * (OpacityMap.SizeX * OpacityMap.SizeY).toNat ≤ 100 * WhitePixels) ↔
      (98 * (OpacityMap.SizeX * OpacityMap.SizeY) ≤ 100 * (WhitePixels : Int)) := by omega
  have c2 : (98 * (OpacityMap.SizeX * OpacityMap.SizeY).toNat ≤
        100 * (WhitePixels + BlackPixels)) ↔
      (98 * (OpacityMap.SizeX * OpacityMap.SizeY) ≤
        100 * ((WhitePixels : Int) + (BlackPixels : Int))) := by omega
  simp only [c1, c2]

set_option maxRecDepth 100000

/-- C1. Whenever the opacity scalar is below `OPACITY_THRESHOLD` (`Opacity < 0.98` as the
source compares the two `double` values), `ChooseBlendMode` returns Translucent, for every
opacity-map descriptor (absent or present, with any pixels and any format), every declared
blend mode and every value of the alpha flag. -/
theorem ChooseBlendMode_translucent_of_opacity_lt (OpacityMapData : FTextureData)
    (Opacity : Double) (BlendMode : EBlendMode) (UseAlphaAsOpacity : Bool)
    (hOpacity : Double.lt Opacity (.Pos OPACITY_THRESHOLD) = true) :
    ChooseBlendMode OpacityMapData Opacity BlendMode UseAlphaAsOpacity =
      some .BLEND_Translucent := by
  unfold ChooseBlendMode
  rw [if_pos hOpacity]

/-- Witness of C1: the opacity `0.5`, with a present all-white map and the hint "mask". -/
theorem ChooseBlendMode_translucent_of_opacity_lt_witness :
    Double.lt (.Pos ⟨1, -1⟩) (.Pos OPACITY_THRESHOLD) = true ∧
      ChooseBlendMode ⟨some ⟨2, 1, .PF_G8, [255, 255], .TC_Default, true⟩, 1⟩ (.Pos ⟨1, -1⟩) (GetBlendMode "mask")
        false = some .BLEND_Translucent :=
  ⟨by decide, ChooseBlendMode_translucent_of_opacity_lt _ _ _ _ (by decide)⟩

/-- C2. With an opacity not below `0.98`, the hint "blend" and a present opacity map in one of
the three counted formats (its size not overflowing `int32`), where `BlackPixels` and
`WhitePixels` are the counts the code computes and the total is `SizeX * SizeY`: if
`WhitePixels < total * 0.98` and `WhitePixels + BlackPixels >= total * 0.98`, both in exact
arithmetic, the resolved blend mode is Masked. -/
theorem ChooseBlendMode_blend_map_bimodal (OpacityMap : UTexture2D) (NumChannels : Nat)
    (Opacity : Double) (UseAlphaAsOpacity : Bool) (BlackPixels WhitePixels : Nat)
    (hOpacity : Double.ge Opacity (.Pos OPACITY_THRESHOLD) = true)
    (hX : 0 ≤ OpacityMap.SizeX) (hY : 0 ≤ OpacityMap.SizeY)
    (hXY : OpacityMap.SizeX * OpacityMap.SizeY < 2 ^ 31)
    (hCounts : OpacityMapPixelCounts OpacityMap UseAlphaAsOpacity =
      some (BlackPixels, WhitePixels))
    (hWhite : 100 * (WhitePixels : Int) < 98 * (OpacityMap.SizeX * OpacityMap.SizeY))
    (hBoth : 98 * (OpacityMap.SizeX * OpacityMap.SizeY) ≤
      100 * ((WhitePixels : Int) + (BlackPixels : Int))) :
    ChooseBlendMode ⟨some OpacityMap, NumChannels⟩ Opacity (GetBlendMode "blend")
        UseAlphaAsOpacity = some .BLEND_Masked := by
  rw [ChooseBlendMode_blend_map_exact OpacityMap NumChannels Opacity UseAlphaAsOpacity
    BlackPixels WhitePixels hOpacity hX hY hXY hCounts, if_neg (not_le.mpr hWhite), if_pos hBoth]

/-- Witness of C2: a 10x10 single-channel map with 50 black and 50 white pixels. -/
theorem ChooseBlendMode_blend_map_bimodal_witness :
    OpacityMapPixelCounts
        ⟨10, 10, .PF_G8, List.replicate 50 0 ++ List.replicate 50 255, .TC_Default, true⟩ false = some (50, 50) ∧
      ChooseBlendMode
        ⟨some ⟨10, 10, .PF_G8, List.replicate 50 0 ++ List.replicate 50 255, .TC_Default, true⟩, 1⟩
        (.Pos (Dyadic.ofNat 1)) (GetBlendMode "blend") false = some .BLEND_Masked :=
  ⟨by decide,
    ChooseBlendMode_blend_map_bimodal
      ⟨10, 10, .PF_G8, List.replicate 50 0 ++ List.replicate 50 255, .TC_Default, true⟩ 1 (.Pos (Dyadic.ofNat 1))
      false 50 50 (by decide) (by decide) (by decide) (by decide) (by decide) (by decide)
      (by decide)⟩

/-- C3. With an opacity not below `0.98`, the hint "blend" and a present opacity map in one of
the three counted formats (its size not overflowing `int32`): if
`WhitePixels >= total * 0.98` in exact arithmetic (equality included), the resolved blend mode
is Opaque, whatever the black count is. -/
theorem ChooseBlendMode_blend_map_white (OpacityMap : UTexture2D) (NumChannels : Nat)
    (Opacity : Double) (UseAlphaAsOpacity : Bool) (BlackPixels WhitePixels : Nat)
    (hOpacity : Double.ge Opacity (.Pos OPACITY_THRESHOLD) = true)
    (hX : 0 ≤ OpacityMap.SizeX) (hY : 0 ≤ OpacityMap.SizeY)
    (hXY : OpacityMap.SizeX * OpacityMap.SizeY < 2 ^ 31)
    (hCounts : OpacityMapPixelCounts OpacityMap UseAlphaAsOpacity =
      some (BlackPixels, WhitePixels))
    (hWhite : 98 * (OpacityMap.SizeX * OpacityMap.SizeY) ≤ 100 * (WhitePixels : Int)) :
    ChooseBlendMode ⟨some OpacityMap, NumChannels⟩ Opacity (GetBlendMode "blend")
        UseAlphaAsOpacity = some .BLEND_Opaque := by
  rw [ChooseBlendMode_blend_map_exact OpacityMap NumChannels Opacity UseAlphaAsOpacity
    BlackPixels WhitePixels hOpacity hX hY hXY hCounts, if_pos hWhite]

/-- Witness of C3: a 10x10 single-channel map whose 100 pixels are all white. -/
theorem ChooseBlendMode_blend_map_white_witness :
    OpacityMapPixelCounts ⟨10, 10, .PF_G8, List.replicate 100 255, .TC_Default, true⟩ false = some (0, 100) ∧
      ChooseBlendMode ⟨some ⟨10, 10, .PF_G8, List.replicate 100 255, .TC_Default, true⟩, 1⟩
        (.Pos (Dyadic.ofNat 1)) (GetBlendMode "blend") false = some .BLEND_Opaque :=
  ⟨by decide,
    ChooseBlendMode_blend_map_white ⟨10, 10, .PF_G8, List.replicate 100 255, .TC_Default, true⟩ 1
      (.Pos (Dyadic.ofNat 1)) false 0 100 (by decide) (by decide) (by decide) (by decide)
      (by decide) (by decide)⟩

/-- C4. With an opacity not below `0.98`, the hint "blend" and a present opacity map in one of
the three counted formats (its size not overflowing `int32`): if
`WhitePixels + BlackPixels < total * 0.98` in exact arithmetic, the resolved blend mode is
Translucent. -/
theorem ChooseBlendMode_blend_map_gradient (OpacityMap : UTexture2D) (NumChannels : Nat)
    (Opacity : Double) (UseAlphaAsOpacity : Bool) (BlackPixels WhitePixels : Nat)
    (hOpacity : Double.ge Opacity (.Pos OPACITY_THRESHOLD) = true)
    (hX : 0 ≤ OpacityMap.SizeX) (hY : 0 ≤ OpacityMap.SizeY)
    (hXY : OpacityMap.SizeX * OpacityMap.SizeY < 2 ^ 31)
    (hCounts : OpacityMapPixelCounts OpacityMap UseAlphaAsOpacity =
      some (BlackPixels, WhitePixels))
    (hBoth : 100 * ((WhitePixels : Int) + (BlackPixels : Int)) <
      98 * (OpacityMap.SizeX * OpacityMap.SizeY)) :
    ChooseBlendMode ⟨some OpacityMap, NumChannels⟩ Opacity (GetBlendMode "blend")
        UseAlphaAsOpacity = some .BLEND_Translucent := by
  have hWhite : ¬ 98 * (OpacityMap.SizeX * OpacityMap.SizeY) ≤ 100 * (WhitePixels : Int) := by
    omega
  rw [ChooseBlendMode_blend_map_exact OpacityMap NumChannels Opacity UseAlphaAsOpacity
    BlackPixels WhitePixels hOpacity hX hY hXY hCounts, if_neg hWhite, if_neg (not_le.mpr hBoth)]

/-- Witness of C4: a 10x10 single-channel map with 10 black, 10 white and 80 mid-gray
pixels. -/
theorem ChooseBlendMode_blend_map_gradient_witness :
    OpacityMapPixelCounts ⟨10, 10, .PF_G8,
        List.replicate 10 0 ++ List.replicate 10 255 ++ List.replicate 80 128, .TC_Default, true⟩ false =
        some (10, 10) ∧
      ChooseBlendMode ⟨some ⟨10, 10, .PF_G8,
        List.replicate 10 0 ++ List.replicate 10 255 ++ List.replicate 80 128, .TC_Default, true⟩, 1⟩
        (.Pos (Dyadic.ofNat 1)) (GetBlendMode "blend") false = some .BLEND_Translucent :=
  ⟨by decide,
    ChooseBlendMode_blend_map_gradient ⟨10, 10, .PF_G8,
        List.replicate 10 0 ++ List.replicate 10 255 ++ List.replicate 80 128, .TC_Default, true⟩ 1
      (.Pos (Dyadic.ofNat 1)) false 10 10 (by decide) (by decide) (by decide) (by decide)
      (by decide) (by decide)⟩

/-- C5. With an opacity not below `0.98` and the hint "mask", the resolved blend mode
(`ChooseBlendMode` applied to `GetBlendMode` of the hint) is Masked for every opacity-map
descriptor, absent or present, with any pixels and any format. -/
theorem ChooseBlendMode_mask (OpacityMapData : FTextureData) (Opacity : Double)
    (UseAlphaAsOpacity : Bool)
    (hOpacity : Double.ge Opacity (.Pos OPACITY_THRESHOLD) = true) :
    ChooseBlendMode OpacityMapData Opacity (GetBlendMode "mask") UseAlphaAsOpacity =
      some .BLEND_Masked := by
  unfold ChooseBlendMode
  rw [Double.lt_false_of_ge _ _ hOpacity, GetBlendMode_mask]
  simp

/-- Witness of C5: opacity `1.0` and a map of unknown format, which is never read. -/
theorem ChooseBlendMode_mask_witness :
    Double.ge (.Pos (Dyadic.ofNat 1)) (.Pos OPACITY_THRESHOLD) = true ∧
      ChooseBlendMode ⟨some ⟨1, 1, .PF_Unknown, [7], .TC_Default, true⟩, 3⟩ (.Pos (Dyadic.ofNat 1))
        (GetBlendMode "mask") true = some .BLEND_Masked :=
  ⟨by decide, ChooseBlendMode_mask _ _ _ (by decide)⟩

/-- C6 (amended). With an opacity not below `0.98`, the resolved blend mode is Opaque (a) when
the hint is "blend" and the descriptor holds no texture, and (b) when the hint compares
unequal to both "mask" and "blend" under the engine's string comparison, which ignores the
case of letters, for every descriptor, absent or present, with any pixels and any format. -/
theorem ChooseBlendMode_remaining_cases (OpacityMapData : FTextureData) (Opacity : Double)
    (OpacityMapMode : String) (UseAlphaAsOpacity : Bool)
    (hOpacity : Double.ge Opacity (.Pos OPACITY_THRESHOLD) = true)
    (hCase : (OpacityMapMode = "blend" ∧ OpacityMapData.Texture = none) ∨
      (FStringEquals OpacityMapMode "mask" = false ∧
        FStringEquals OpacityMapMode "blend" = false)) :
    ChooseBlendMode OpacityMapData Opacity (GetBlendMode OpacityMapMode) UseAlphaAsOpacity =
      some .BLEND_Opaque := by
  unfold ChooseBlendMode
  rw [Double.lt_false_of_ge _ _ hOpacity]
  rcases hCase with ⟨hm, ht⟩ | ⟨h1, h2⟩
  · subst hm
    rw [GetBlendMode_blend, ht]
    simp
  · simp [GetBlendMode, h1, h2]

/-- Witness of C6: the hint "blend" without a texture, and the hint "opaque" with a map of
unknown format. -/
theorem ChooseBlendMode_remaining_cases_witness :
    ChooseBlendMode ⟨none, 0⟩ (.Pos (Dyadic.ofNat 1)) (GetBlendMode "blend") false =
        some .BLEND_Opaque ∧
      ChooseBlendMode ⟨some ⟨1, 1, .PF_Unknown, [7], .TC_Default, true⟩, 3⟩ (.Pos (Dyadic.ofNat 1))
        (GetBlendMode "opaque") true = some .BLEND_Opaque :=
  ⟨ChooseBlendMode_remaining_cases _ _ _ _ (by decide) (Or.inl ⟨rfl, rfl⟩),
    ChooseBlendMode_remaining_cases _ _ _ _ (by decide) (Or.inr ⟨by decide, by decide⟩)⟩

/-- C6 as stated fails: the hint "Mask" is neither the string "mask" nor the string "blend",
the opacity `1.0` is not below `0.98`, and the resolved blend mode is Masked, not Opaque. -/
theorem ChooseBlendMode_hint_case_counterexample :
    "Mask" ≠ "mask" ∧ "Mask" ≠ "blend" ∧
      Double.ge (.Pos (Dyadic.ofNat 1)) (.Pos OPACITY_THRESHOLD) = true ∧
      ChooseBlendMode ⟨none, 0⟩ (.Pos (Dyadic.ofNat 1)) (GetBlendMode "Mask") false =
        some .BLEND_Masked ∧
      ChooseBlendMode ⟨none, 0⟩ (.Pos (Dyadic.ofNat 1)) (GetBlendMode "Mask") false ≠
        some .BLEND_Opaque := by
  decide

/-! ## The mesh cache -/

theorem lookup_append_single {V : Type} (l : List (String × V)) (Key Other : String)
    (Value : V) :
    (l ++ [(Key, Value)]).lookup Other =
      match l.lookup Other with
      | some Found => some Found
      | none => if Other = Key then some Value else none := by
  induction l with
  | nil =>
    by_cases h : Other = Key
    · subst h; simp [List.lookup]
    · have : (Other == Key) = false := by simpa using h
      simp [List.lookup, this, h]
  | cons p ps ih =>
    obtain ⟨k, v⟩ := p
    by_cases h : Other = k
    · subst h; simp [List.lookup]
    · have : (Other == k) = false := by simpa using h
      simp only [List.cons_append, List.lookup, this]
      exact ih

theorem TMap.Find_Add_of_absent {V : Type} (self : TMap V) (Key : String) (Value : V)
    (h : self.Find Key = none) (Other : String) :
    (self.Add Key Value).Find Other = if Other = Key then some Value else self.Find Other := by
  have hc : self.Contains Key = false := by simp [TMap.Contains, h]
  unfold TMap.Add
  rw [hc]
  simp only [Bool.false_eq_true, if_false, TMap.Find]
  rw [lookup_append_single]
  by_cases ho : Other = Key
  · subst ho
    have : self.Pairs.lookup Other = none := h
    rw [this]
  · simp only [ho, if_false]
    cases self.Pairs.lookup Other <;> rfl

theorem FMeshCache.InsertOrGet_of_present (self : FMeshCache) (Uri : String)
    (Mesh Existing : MeshHandle) (h : self.Cache.Find Uri = some Existing) :
    self.InsertOrGet Uri Mesh = (Existing, self) := by
  have hc : self.Cache.Contains Uri = true := by simp [TMap.Contains, h]
  unfold FMeshCache.InsertOrGet
  rw [dif_pos hc]
  simp [TMap.Index, h]

theorem FMeshCache.InsertOrGet_of_absent (self : FMeshCache) (Uri : String)
    (Mesh : MeshHandle) (h : self.Cache.Find Uri = none) :
    self.InsertOrGet Uri Mesh = (Mesh, ⟨⟨self.Cache.Pairs ++ [(Uri, Mesh)]⟩⟩) := by
  have hc : self.Cache.Contains Uri = false := by simp [TMap.Contains, h]
  unfold FMeshCache.InsertOrGet
  rw [dif_neg (by simp [hc])]
  simp [TMap.Add, hc]

theorem FMeshCache.Get_of_present (self : FMeshCache) (Uri : String) (Stored : MeshHandle)
    (h : self.Cache.Find Uri = some Stored) : self.Get Uri = (Stored, self) := by
  have hc : self.Cache.Contains Uri = true := by simp [TMap.Contains, h]
  unfold FMeshCache.Get
  rw [dif_neg (by simp [hc])]
  simp [TMap.Index, h]

theorem FMeshCache.Get_of_absent (self : FMeshCache) (Uri : String)
    (h : self.Cache.Find Uri = none) : self.Get Uri = (none, self) := by
  have hc : self.Cache.Contains Uri = false := by simp [TMap.Contains, h]
  unfold FMeshCache.Get
  rw [dif_pos (by simp [hc])]

theorem FMeshCache.Find_InsertOrGet_of_absent (self : FMeshCache) (Uri : String)
    (Mesh : MeshHandle) (h : self.Cache.Find Uri = none) (Other : String) :
    (self.InsertOrGet Uri Mesh).2.Cache.Find Other =
      if Other = Uri then some Mesh else self.Cache.Find Other := by
  rw [FMeshCache.InsertOrGet_of_absent self Uri Mesh h]
  have := TMap.Find_Add_of_absent self.Cache Uri Mesh h Other
  have hc : self.Cache.Contains Uri = false := by simp [TMap.Contains, h]
  simpa [TMap.Add, hc] using this

theorem FMeshCache.step_preserves (self : FMeshCache) (op : CacheOp) (Uri : String)
    (Handle : MeshHandle) (h : self.Cache.Find Uri = some Handle) :
    (self.step op).Cache.Find Uri = some Handle := by
  cases op with
  | Get Key =>
    simp only [FMeshCache.step]
    rcases hk : self.Cache.Find Key with _ | Stored
    · rw [FMeshCache.Get_of_absent self Key hk]; exact h
    · rw [FMeshCache.Get_of_present self Key Stored hk]; exact h
  | InsertOrGet Key Mesh =>
    simp only [FMeshCache.step]
    rcases hk : self.Cache.Find Key with _ | Existing
    · rw [FMeshCache.Find_InsertOrGet_of_absent self Key Mesh hk Uri]
      have hne : Uri ≠ Key := by
        intro he; subst he; rw [hk] at h; cases h
      rw [if_neg hne]; exact h
    · rw [FMeshCache.InsertOrGet_of_present self Key Mesh Existing hk]; exact h

theorem FMeshCache.run_preserves (ops : List CacheOp) (self : FMeshCache) (Uri : String)
    (Handle : MeshHandle) (h : self.Cache.Find Uri = some Handle) :
    (self.run ops).Cache.Find Uri = some Handle := by
  induction ops generalizing self with
  | nil => exact h
  | cons op rest ih =>
    exact ih (self.step op) (FMeshCache.step_preserves self op Uri Handle h)

/-- C8. On a cache without an entry for `Uri`, two `InsertOrGet` calls for `Uri` with the
candidates `Mesh1` and `Mesh2` (distinct or not), each run atomically, return the same
handle to both callers in either order, namely the candidate of the call that ran first, and
a `Get` for `Uri` afterwards returns that handle too. -/
theorem InsertOrGet_race (self : FMeshCache) (Uri : String) (Mesh1 Mesh2 : MeshHandle)
    (hAbsent : self.Cache.Find Uri = none) :
    ((self.InsertOrGet Uri Mesh1).1 = Mesh1 ∧
      ((self.InsertOrGet Uri Mesh1).2.InsertOrGet Uri Mesh2).1 = Mesh1 ∧
      (((self.InsertOrGet Uri Mesh1).2.InsertOrGet Uri Mesh2).2.Get Uri).1 = Mesh1) ∧
    ((self.InsertOrGet Uri Mesh2).1 = Mesh2 ∧
      ((self.InsertOrGet Uri Mesh2).2.InsertOrGet Uri Mesh1).1 = Mesh2 ∧
      (((self.InsertOrGet Uri Mesh2).2.InsertOrGet Uri Mesh1).2.Get Uri).1 = Mesh2) := by
  have key : ∀ First Second : MeshHandle,
      (self.InsertOrGet Uri First).1 = First ∧
      ((self.InsertOrGet Uri First).2.InsertOrGet Uri Second).1 = First ∧
      (((self.InsertOrGet Uri First).2.InsertOrGet Uri Second).2.Get Uri).1 = First := by
    intro First Second
    have hf : (self.InsertOrGet Uri First).2.Cache.Find Uri = some First := by
      rw [FMeshCache.Find_InsertOrGet_of_absent self Uri First hAbsent Uri, if_pos rfl]
    have h2 := FMeshCache.InsertOrGet_of_present (self.InsertOrGet Uri First).2 Uri Second
      First hf
    refine ⟨?_, ?_, ?_⟩
    · rw [FMeshCache.InsertOrGet_of_absent self Uri First hAbsent]
    · rw [h2]
    · rw [h2, FMeshCache.Get_of_present _ Uri First hf]
  exact ⟨key Mesh1 Mesh2, key Mesh2 Mesh1⟩

/-- Witness of C8: two distinct candidates for "a" on the empty cache. -/
theorem InsertOrGet_race_witness :
    ((FMeshCache.InsertOrGet ⟨⟨[]⟩⟩ "a" (some 1)).2.InsertOrGet "a" (some 2)).1 = some 1 ∧
      ((FMeshCache.InsertOrGet ⟨⟨[]⟩⟩ "a" (some 2)).2.InsertOrGet "a" (some 1)).1 = some 2 :=
  ⟨(InsertOrGet_race ⟨⟨[]⟩⟩ "a" (some 1) (some 2) (by decide)).1.2.1,
    (InsertOrGet_race ⟨⟨[]⟩⟩ "a" (some 1) (some 2) (by decide)).2.2.1⟩

/-- C9. `Get` returns the empty handle when the cache holds no entry for `Uri` and the stored
handle when it holds one; in both cases the cache after the call is the cache before it. -/
theorem Get_returns_entry (self : FMeshCache) (Uri : String) :
    (self.Cache.Find Uri = none → self.Get Uri = (none, self)) ∧
      (∀ Stored : MeshHandle, self.Cache.Find Uri = some Stored →
        self.Get Uri = (Stored, self)) :=
  ⟨FMeshCache.Get_of_absent self Uri, fun Stored h => FMeshCache.Get_of_present self Uri Stored h⟩

/-- Witness of C9: a lookup of the absent "b" and of the present "a". -/
theorem Get_returns_entry_witness :
    FMeshCache.Get ⟨⟨[("a", some 1)]⟩⟩ "b" = (none, ⟨⟨[("a", some 1)]⟩⟩) ∧
      FMeshCache.Get ⟨⟨[("a", some 1)]⟩⟩ "a" = (some 1, ⟨⟨[("a", some 1)]⟩⟩) :=
  ⟨(Get_returns_entry ⟨⟨[("a", some 1)]⟩⟩ "b").1 (by decide),
    (Get_returns_entry ⟨⟨[("a", some 1)]⟩⟩ "a").2 (some 1) (by decide)⟩

/-- C10. Entries are never evicted or replaced: if after some sequence of `Get` and
`InsertOrGet` calls the cache maps `Uri` to `Handle`, it still maps `Uri` to `Handle` after
every continuation of that sequence. -/
theorem entries_never_evicted (self : FMeshCache) (before after : List CacheOp) (Uri : String)
    (Handle : MeshHandle) (h : (self.run before).Cache.Find Uri = some Handle) :
    (self.run (before ++ after)).Cache.Find Uri = some Handle := by
  have : self.run (before ++ after) = (self.run before).run after := by
    simp [FMeshCache.run, List.foldl_append]
  rw [this]
  exact FMeshCache.run_preserves after (self.run before) Uri Handle h

/-- Witness of C10: "a" is stored first; a later writer for "a", a lookup and a writer for
"b" leave it in place. -/
theorem entries_never_evicted_witness :
    (FMeshCache.run ⟨⟨[]⟩⟩ [.InsertOrGet "a" (some 1)]).Cache.Find "a" = some (some 1) ∧
      (FMeshCache.run ⟨⟨[]⟩⟩ ([.InsertOrGet "a" (some 1)] ++
        [.InsertOrGet "a" (some 2), .Get "a", .InsertOrGet "b" (some 3)])).Cache.Find "a" =
        some (some 1) :=
  ⟨by decide, entries_never_evicted ⟨⟨[]⟩⟩ _ _ "a" (some 1) (by decide)⟩


/-! ## Pixel counting -/

theorem BLACK_COLOR_THRESHOLD_eq : BLACK_COLOR_THRESHOLD = ⟨5764607523034235, -58⟩ := by decide

theorem WHITE_COLOR_THRESHOLD_eq : WHITE_COLOR_THRESHOLD = ⟨8827055269646172, -53⟩ := by decide

theorem BLACK_COLOR_THRESHOLD_toRat :
    BLACK_COLOR_THRESHOLD.toRat = 5764607523034235 / 288230376151711744 := by
  rw [BLACK_COLOR_THRESHOLD_eq]
  norm_num [Dyadic.toRat, zpow_neg]

theorem WHITE_COLOR_THRESHOLD_toRat :
    WHITE_COLOR_THRESHOLD.toRat = 8827055269646172 / 9007199254740992 := by
  rw [WHITE_COLOR_THRESHOLD_eq]
  norm_num [Dyadic.toRat, zpow_neg]

/-- A sample quotient lies below every `double` above a `float` upper bound of the exact
quotient. -/
theorem fdivNat_lt (v k a : Nat) (f : Int) (T : Dyadic) (hk : 0 < k) (ha : a < 2 ^ 24)
    (h1 : (v : ℚ) / k ≤ (a : ℚ) * (2 : ℚ) ^ f) (h2 : (a : ℚ) * (2 : ℚ) ^ f < T.toRat) :
    Dyadic.lt (fdivNat v k) T = true := by
  rw [Dyadic.lt_iff]
  exact lt_of_le_of_lt (roundNE_le 24 v k hk a f ha h1) h2

/-- A sample quotient is not below a `double` that a `float` lower bound of the exact quotient
reaches. -/
theorem fdivNat_not_lt (v k a : Nat) (f : Int) (T : Dyadic) (hk : 0 < k) (ha : a < 2 ^ 24)
    (h1 : (a : ℚ) * (2 : ℚ) ^ f ≤ (v : ℚ) / k) (h2 : T.toRat ≤ (a : ℚ) * (2 : ℚ) ^ f) :
    Dyadic.lt (fdivNat v k) T = false := by
  rw [← Bool.not_eq_true, Dyadic.lt_iff, not_lt]
  exact le_trans h2 (le_roundNE 24 v k (by norm_num) hk a f ha h1)

theorem lt_fdivNat (v k a : Nat) (f : Int) (T : Dyadic) (hk : 0 < k) (ha : a < 2 ^ 24)
    (h1 : (a : ℚ) * (2 : ℚ) ^ f ≤ (v : ℚ) / k) (h2 : T.toRat < (a : ℚ) * (2 : ℚ) ^ f) :
    Dyadic.lt T (fdivNat v k) = true := by
  rw [Dyadic.lt_iff]
  exact lt_of_lt_of_le h2 (le_roundNE 24 v k (by norm_num) hk a f ha h1)

theorem not_lt_fdivNat (v k a : Nat) (f : Int) (T : Dyadic) (hk : 0 < k) (ha : a < 2 ^ 24)
    (h1 : (v : ℚ) / k ≤ (a : ℚ) * (2 : ℚ) ^ f) (h2 : (a : ℚ) * (2 : ℚ) ^ f ≤ T.toRat) :
    Dyadic.lt T (fdivNat v k) = false := by
  rw [← Bool.not_eq_true, Dyadic.lt_iff, not_lt]
  exact le_trans (roundNE_le 24 v k hk a f ha h1) h2

theorem black_uint8_iff (v : Nat) :
    Dyadic.lt (fdivNat v 0xFF) BLACK_COLOR_THRESHOLD = true ↔ v ≤ 5 := by
  constructor
  · intro h
    by_contra hc
    have hv : (6 : ℚ) ≤ v := by exact_mod_cast (by omega : 6 ≤ v)
    have := fdivNat_not_lt v 0xFF 84 (-12) BLACK_COLOR_THRESHOLD (by norm_num) (by norm_num)
      (by rw [le_div_iff₀ (by norm_num)]; norm_num [zpow_neg]; linarith)
      (by rw [BLACK_COLOR_THRESHOLD_toRat]; norm_num [zpow_neg])
    rw [this] at h; cases h
  · intro h
    have hv : (v : ℚ) ≤ 5 := by exact_mod_cast h
    exact fdivNat_lt v 0xFF 81 (-12) BLACK_COLOR_THRESHOLD (by norm_num) (by norm_num)
      (by rw [div_le_iff₀ (by norm_num)]; norm_num [zpow_neg]; linarith)
      (by rw [BLACK_COLOR_THRESHOLD_toRat]; norm_num [zpow_neg])

theorem white_uint8_iff (v : Nat) :
    Dyadic.lt WHITE_COLOR_THRESHOLD (fdivNat v 0xFF) = true ↔ 250 ≤ v := by
  constructor
  · intro h
    by_contra hc
    have hv : (v : ℚ) ≤ 249 := by exact_mod_cast (by omega : v ≤ 249)
    have := not_lt_fdivNat v 0xFF 4006 (-12) WHITE_COLOR_THRESHOLD (by norm_num) (by norm_num)
      (by rw [div_le_iff₀ (by norm_num)]; norm_num [zpow_neg]; linarith)
      (by rw [WHITE_COLOR_THRESHOLD_toRat]; norm_num [zpow_neg])
    rw [this] at h; cases h
  · intro h
    have hv : (250 : ℚ) ≤ v := by exact_mod_cast h
    exact lt_fdivNat v 0xFF 4015 (-12) WHITE_COLOR_THRESHOLD (by norm_num) (by norm_num)
      (by rw [le_div_iff₀ (by norm_num)]; norm_num [zpow_neg]; linarith)
      (by rw [WHITE_COLOR_THRESHOLD_toRat]; norm_num [zpow_neg])

theorem black_uint16_iff (v : Nat) :
    Dyadic.lt (fdivNat v 0xFFFF) BLACK_COLOR_THRESHOLD = true ↔ v ≤ 1310 := by
  constructor
  · intro h
    by_contra hc
    have hv : (1311 : ℚ) ≤ v := by exact_mod_cast (by omega : 1311 ≤ v)
    have := fdivNat_not_lt v 0xFFFF 20974 (-20) BLACK_COLOR_THRESHOLD (by norm_num)
      (by norm_num)
      (by rw [le_div_iff₀ (by norm_num)]; norm_num [zpow_neg]; linarith)
      (by rw [BLACK_COLOR_THRESHOLD_toRat]; norm_num [zpow_neg])
    rw [this] at h; cases h
  · intro h
    have hv : (v : ℚ) ≤ 1310 := by exact_mod_cast h
    exact fdivNat_lt v 0xFFFF 20966 (-20) BLACK_COLOR_THRESHOLD (by norm_num) (by norm_num)
      (by rw [div_le_iff₀ (by norm_num)]; norm_num [zpow_neg]; linarith)
      (by rw [BLACK_COLOR_THRESHOLD_toRat]; norm_num [zpow_neg])

theorem white_uint16_iff (v : Nat) :
    Dyadic.lt WHITE_COLOR_THRESHOLD (fdivNat v 0xFFFF) = true ↔ 64225 ≤ v := by
  constructor
  · intro h
    by_contra hc
    have hv : (v : ℚ) ≤ 64224 := by exact_mod_cast (by omega : v ≤ 64224)
    have := not_lt_fdivNat v 0xFFFF 1027602 (-20) WHITE_COLOR_THRESHOLD (by norm_num)
      (by norm_num)
      (by rw [div_le_iff₀ (by norm_num)]; norm_num [zpow_neg]; linarith)
      (by rw [WHITE_COLOR_THRESHOLD_toRat]; norm_num [zpow_neg])
    rw [this] at h; cases h
  · intro h
    have hv : (64225 : ℚ) ≤ v := by exact_mod_cast h
    exact lt_fdivNat v 0xFFFF 1027610 (-20) WHITE_COLOR_THRESHOLD (by norm_num) (by norm_num)
      (by rw [le_div_iff₀ (by norm_num)]; norm_num [zpow_neg]; linarith)
      (by rw [WHITE_COLOR_THRESHOLD_toRat]; norm_num [zpow_neg])

/-- The loop of `CountOpacityMapPixels` as two counts: as long as the counters cannot reach
`2 ^ 32`, it adds the number of samples below the black threshold and the number of the
remaining samples above the white threshold. -/
theorem foldl_CountStep_eq (Values : List Dyadic) (acc : Nat × Nat)
    (h : acc.1 + acc.2 + Values.length < 2 ^ 32) :
    Values.foldl CountStep acc =
      (acc.1 + Values.countP (fun V => Dyadic.lt V BLACK_COLOR_THRESHOLD),
        acc.2 + Values.countP (fun V => !Dyadic.lt V BLACK_COLOR_THRESHOLD &&
          Dyadic.lt WHITE_COLOR_THRESHOLD V)) := by
  induction Values generalizing acc with
  | nil => simp
  | cons V Vs ih =>
    simp only [List.length_cons] at h
    simp only [List.foldl_cons]
    by_cases hb : Dyadic.lt V BLACK_COLOR_THRESHOLD = true
    · have hs : CountStep acc V = (acc.1 + 1, acc.2) := by
        unfold CountStep
        rw [if_pos hb, Nat.mod_eq_of_lt (by omega)]
      rw [hs, ih _ (by simp only []; omega)]
      simp [List.countP_cons, hb]
      omega
    · by_cases hw : Dyadic.lt WHITE_COLOR_THRESHOLD V = true
      · have hs : CountStep acc V = (acc.1, acc.2 + 1) := by
          unfold CountStep
          rw [if_neg hb, if_pos hw, Nat.mod_eq_of_lt (by omega)]
        rw [hs, ih _ (by simp only []; omega)]
        simp [List.countP_cons, hb, hw]
        omega
      · have hs : CountStep acc V = acc := by
          unfold CountStep
          rw [if_neg hb, if_neg hw]
        rw [hs, ih _ (by omega)]
        simp [List.countP_cons, hb, hw]

theorem wrapInt32_lt (z : Int) : wrapInt32 z < 2 ^ 31 := by
  unfold wrapInt32
  have := Int.emod_lt_of_pos (z + 2 ^ 31) (by norm_num : (0 : Int) < 2 ^ 32)
  norm_num at this ⊢
  omega

/-- The template as two counts over the visited samples. -/
theorem CountOpacityMapPixels_eq_countP {T : Type} (SrcColors : List T) (SizeX SizeY : Int)
    (Accessor : T → Dyadic) :
    CountOpacityMapPixels SrcColors SizeX SizeY Accessor =
      ((SrcColors.take (wrapInt32 (SizeX * SizeY)).toNat).countP
          (fun Color => Dyadic.lt (Accessor Color) BLACK_COLOR_THRESHOLD),
        (SrcColors.take (wrapInt32 (SizeX * SizeY)).toNat).countP
          (fun Color => !Dyadic.lt (Accessor Color) BLACK_COLOR_THRESHOLD &&
            Dyadic.lt WHITE_COLOR_THRESHOLD (Accessor Color))) := by
  unfold CountOpacityMapPixels
  have hlen : ((SrcColors.take (wrapInt32 (SizeX * SizeY)).toNat).map Accessor).length <
      2 ^ 32 := by
    have h1 := wrapInt32_lt (SizeX * SizeY)
    have h2 := min_le_left (wrapInt32 (SizeX * SizeY)).toNat SrcColors.length
    simp only [List.length_map, List.length_take]
    norm_num at h1 ⊢
    omega
  rw [foldl_CountStep_eq _ _ (by simpa using hlen)]
  simp only [Nat.zero_add, List.countP_map]
  rfl

theorem countP_congr_fun {T : Type} (l : List T) (p q : T → Bool) (h : ∀ x, p x = q x) :
    l.countP p = l.countP q := by
  have : p = q := funext h
  rw [this]

/-- The `uint8` overload in integer terms. -/
theorem CountOpacityMapPixels_uint8_eq (SrcColors : List Nat) (SizeX SizeY : Int) :
    CountOpacityMapPixels_uint8 SrcColors SizeX SizeY =
      ((SrcColors.take (wrapInt32 (SizeX * SizeY)).toNat).countP (fun v => decide (v ≤ 5)),
        (SrcColors.take (wrapInt32 (SizeX * SizeY)).toNat).countP
          (fun v => decide (250 ≤ v))) := by
  unfold CountOpacityMapPixels_uint8
  rw [CountOpacityMapPixels_eq_countP]
  congr 1
  · apply countP_congr_fun
    intro v
    rw [Bool.eq_iff_iff, black_uint8_iff, decide_eq_true_iff]
  · apply countP_congr_fun
    intro v
    rw [Bool.eq_iff_iff, Bool.and_eq_true, Bool.not_eq_true', ← Bool.not_eq_true,
      black_uint8_iff, white_uint8_iff, decide_eq_true_iff]
    omega

/-- The `uint16` overload in integer terms. -/
theorem CountOpacityMapPixels_uint16_eq (SrcColors : List Nat) (SizeX SizeY : Int) :
    CountOpacityMapPixels_uint16 SrcColors SizeX SizeY =
      ((SrcColors.take (wrapInt32 (SizeX * SizeY)).toNat).countP (fun v => decide (v ≤ 1310)),
        (SrcColors.take (wrapInt32 (SizeX * SizeY)).toNat).countP
          (fun v => decide (64225 ≤ v))) := by
  unfold CountOpacityMapPixels_uint16
  rw [CountOpacityMapPixels_eq_countP]
  congr 1
  · apply countP_congr_fun
    intro v
    rw [Bool.eq_iff_iff, black_uint16_iff, decide_eq_true_iff]
  · apply countP_congr_fun
    intro v
    rw [Bool.eq_iff_iff, Bool.and_eq_true, Bool.not_eq_true', ← Bool.not_eq_true,
      black_uint16_iff, white_uint16_iff, decide_eq_true_iff]
    omega

/-- The `FColor` overload is the `uint8` overload on the selected channel. -/
theorem CountOpacityMapPixels_FColor_eq (SrcColors : List FColor) (UseAlphaChannel : Bool)
    (SizeX SizeY : Int) :
    CountOpacityMapPixels_FColor SrcColors UseAlphaChannel SizeX SizeY =
      CountOpacityMapPixels_uint8
        (SrcColors.map (fun Color => if UseAlphaChannel then Color.A else Color.R))
        SizeX SizeY := by
  unfold CountOpacityMapPixels_FColor CountOpacityMapPixels_uint8 CountOpacityMapPixels
  rw [← List.map_take, List.map_map]
  rfl

theorem wrapInt32_toNat_le (z : Int) (h : 0 ≤ z) : ((wrapInt32 z).toNat : Int) ≤ z := by
  unfold wrapInt32
  simp only [show (2 : Int) ^ 31 = 2147483648 by norm_num,
    show (2 : Int) ^ 32 = 4294967296 by norm_num]
  omega

theorem ClassifyCounts_zero : ClassifyCounts 0 0 0 = .BLEND_Opaque := by decide

/-- C17. Each sample `v` is normalized to `v / 255` (8-bit layouts) or `v / 65535` (16-bit
layout) in `float` arithmetic and compared with the `double` thresholds; the comparison the
code makes agrees with the exact one (`v / 255 < 0.02`, `v / 255 > 0.98`) and, in integer
terms, an 8-bit sample is black iff `v <= 5` and white iff `v >= 250`, a 16-bit sample is
black iff `v <= 1310` and white iff `v >= 64225`, any other sample is neither.  For each of
the three overloads `BlackPixels` and `WhitePixels` are the numbers of such samples among the
first `SizeX * SizeY` ones (for the `FColor` overload, of the selected channel). -/
theorem CountOpacityMapPixels_thresholds :
    (∀ v : Nat,
      ((Dyadic.lt (fdivNat v 0xFF) BLACK_COLOR_THRESHOLD = true ↔ (v : ℚ) / 255 < 2 / 100) ∧
        (Dyadic.lt (fdivNat v 0xFF) BLACK_COLOR_THRESHOLD = true ↔ v ≤ 5)) ∧
      ((Dyadic.lt WHITE_COLOR_THRESHOLD (fdivNat v 0xFF) = true ↔ (98 : ℚ) / 100 < v / 255) ∧
        (Dyadic.lt WHITE_COLOR_THRESHOLD (fdivNat v 0xFF) = true ↔ 250 ≤ v))) ∧
    (∀ v : Nat,
      ((Dyadic.lt (fdivNat v 0xFFFF) BLACK_COLOR_THRESHOLD = true ↔
          (v : ℚ) / 65535 < 2 / 100) ∧
        (Dyadic.lt (fdivNat v 0xFFFF) BLACK_COLOR_THRESHOLD = true ↔ v ≤ 1310)) ∧
      ((Dyadic.lt WHITE_COLOR_THRESHOLD (fdivNat v 0xFFFF) = true ↔
          (98 : ℚ) / 100 < v / 65535) ∧
        (Dyadic.lt WHITE_COLOR_THRESHOLD (fdivNat v 0xFFFF) = true ↔ 64225 ≤ v))) ∧
    (∀ (SrcColors : List Nat) (SizeX SizeY : Int),
      CountOpacityMapPixels_uint8 SrcColors SizeX SizeY =
        ((SrcColors.take (wrapInt32 (SizeX * SizeY)).toNat).countP (fun v => decide (v ≤ 5)),
          (SrcColors.take (wrapInt32 (SizeX * SizeY)).toNat).countP
            (fun v => decide (250 ≤ v)))) ∧
    (∀ (SrcColors : List Nat) (SizeX SizeY : Int),
      CountOpacityMapPixels_uint16 SrcColors SizeX SizeY =
        ((SrcColors.take (wrapInt32 (SizeX * SizeY)).toNat).countP
            (fun v => decide (v ≤ 1310)),
          (SrcColors.take (wrapInt32 (SizeX * SizeY)).toNat).countP
            (fun v => decide (64225 ≤ v)))) ∧
    (∀ (SrcColors : List FColor) (UseAlphaChannel : Bool) (SizeX SizeY : Int),
      CountOpacityMapPixels_FColor SrcColors UseAlphaChannel SizeX SizeY =
        (((SrcColors.map (fun Color => if UseAlphaChannel then Color.A else Color.R)).take
            (wrapInt32 (SizeX * SizeY)).toNat).countP (fun v => decide (v ≤ 5)),
          ((SrcColors.map (fun Color => if UseAlphaChannel then Color.A else Color.R)).take
            (wrapInt32 (SizeX * SizeY)).toNat).countP (fun v => decide (250 ≤ v)))) ∧
    (∀ SizeX SizeY : Int, 0 ≤ SizeX * SizeY → SizeX * SizeY < 2 ^ 31 →
      (wrapInt32 (SizeX * SizeY)).toNat = (SizeX * SizeY).toNat) := by
  refine ⟨fun v => ⟨⟨?_, black_uint8_iff v⟩, ?_, white_uint8_iff v⟩,
    fun v => ⟨⟨?_, black_uint16_iff v⟩, ?_, white_uint16_iff v⟩,
    CountOpacityMapPixels_uint8_eq, CountOpacityMapPixels_uint16_eq, ?_, ?_⟩
  · rw [black_uint8_iff, div_lt_iff₀ (by norm_num)]
    constructor
    · intro h
      have : (v : ℚ) ≤ 5 := by exact_mod_cast h
      linarith
    · intro h
      by_contra hc
      have : (6 : ℚ) ≤ v := by exact_mod_cast (by omega : 6 ≤ v)
      linarith
  · rw [white_uint8_iff, lt_div_iff₀ (by norm_num)]
    constructor
    · intro h
      have : (250 : ℚ) ≤ v := by exact_mod_cast h
      linarith
    · intro h
      by_contra hc
      have : (v : ℚ) ≤ 249 := by exact_mod_cast (by omega : v ≤ 249)
      linarith
  · rw [black_uint16_iff, div_lt_iff₀ (by norm_num)]
    constructor
    · intro h
      have : (v : ℚ) ≤ 1310 := by exact_mod_cast h
      linarith
    · intro h
      by_contra hc
      have : (1311 : ℚ) ≤ v := by exact_mod_cast (by omega : 1311 ≤ v)
      linarith
  · rw [white_uint16_iff, lt_div_iff₀ (by norm_num)]
    constructor
    · intro h
      have : (64225 : ℚ) ≤ v := by exact_mod_cast h
      linarith
    · intro h
      by_contra hc
      have : (v : ℚ) ≤ 64224 := by exact_mod_cast (by omega : v ≤ 64224)
      linarith
  · intro SrcColors UseAlphaChannel SizeX SizeY
    rw [CountOpacityMapPixels_FColor_eq, CountOpacityMapPixels_uint8_eq]
  · intro SizeX SizeY h0 h1
    rw [wrapInt32_of_range _ h0 h1]

/-- Witness of C17: the boundary samples 5, 6, 249, 250 of an 8-bit map and a 2x2 map holding
them. -/
theorem CountOpacityMapPixels_thresholds_witness :
    (Dyadic.lt (fdivNat 5 0xFF) BLACK_COLOR_THRESHOLD = true ∧
      Dyadic.lt (fdivNat 6 0xFF) BLACK_COLOR_THRESHOLD = false ∧
      Dyadic.lt WHITE_COLOR_THRESHOLD (fdivNat 249 0xFF) = false ∧
      Dyadic.lt WHITE_COLOR_THRESHOLD (fdivNat 250 0xFF) = true) ∧
    CountOpacityMapPixels_uint8 [5, 6, 249, 250] 2 2 = (1, 1) :=
  ⟨⟨(CountOpacityMapPixels_thresholds.1 5).1.2.mpr (by decide), by decide, by decide,
      (CountOpacityMapPixels_thresholds.1 250).2.2.mpr (by decide)⟩,
    (CountOpacityMapPixels_thresholds.2.2.1 [5, 6, 249, 250] 2 2).trans (by decide)⟩

/-- C18. For a 4-channel 8-bit opacity map the counts are those of the single-channel 8-bit
count applied to the alpha channel of every pixel when the flag is true and to the `R` channel
when it is false; hence the classification of the map is that of the single-channel map holding
the selected channel, and two buffers that agree on the selected channel of every pixel give
the same counts, whatever their other three channels are. -/
theorem CountOpacityMapPixels_FColor_channel :
    (∀ (SrcColors : List FColor) (UseAlphaChannel : Bool) (SizeX SizeY : Int),
      CountOpacityMapPixels_FColor SrcColors UseAlphaChannel SizeX SizeY =
        CountOpacityMapPixels_uint8
          (SrcColors.map (fun Color => if UseAlphaChannel then Color.A else Color.R))
          SizeX SizeY) ∧
    (∀ (SizeX SizeY : Int) (BulkData : List Nat) (Compression : TextureCompressionSettings)
        (SRGB : Bool) (NumChannels : Nat) (UseAlphaAsOpacity : Bool),
      ChooseBlendModeFromOpacityMap
          ⟨some ⟨SizeX, SizeY, .PF_B8G8R8A8, BulkData, Compression, SRGB⟩, NumChannels⟩
          UseAlphaAsOpacity =
        ChooseBlendModeFromOpacityMap
          ⟨some ⟨SizeX, SizeY, .PF_G8, (asFColor BulkData).map
            (fun Color => if UseAlphaAsOpacity then Color.A else Color.R), Compression, SRGB⟩,
            NumChannels⟩
          UseAlphaAsOpacity) ∧
    (∀ (Src1 Src2 : List FColor) (UseAlphaChannel : Bool) (SizeX SizeY : Int),
      Src1.map (fun Color => if UseAlphaChannel then Color.A else Color.R) =
          Src2.map (fun Color => if UseAlphaChannel then Color.A else Color.R) →
        CountOpacityMapPixels_FColor Src1 UseAlphaChannel SizeX SizeY =
          CountOpacityMapPixels_FColor Src2 UseAlphaChannel SizeX SizeY) := by
  refine ⟨CountOpacityMapPixels_FColor_eq, ?_, ?_⟩
  · intro SizeX SizeY BulkData Compression SRGB NumChannels UseAlphaAsOpacity
    simp only [ChooseBlendModeFromOpacityMap, OpacityMapPixelCounts,
      CountOpacityMapPixels_FColor_eq]
  · intro Src1 Src2 UseAlphaChannel SizeX SizeY h
    rw [CountOpacityMapPixels_FColor_eq, CountOpacityMapPixels_FColor_eq, h]

/-- Witness of C18: two 2x1 maps that differ in the blue, green and red channels only give
the same alpha counts. -/
theorem CountOpacityMapPixels_FColor_channel_witness :
    CountOpacityMapPixels_FColor [⟨1, 2, 3, 255⟩, ⟨4, 5, 6, 0⟩] true 2 1 =
      CountOpacityMapPixels_FColor [⟨200, 100, 50, 255⟩, ⟨0, 255, 77, 0⟩] true 2 1 :=
  CountOpacityMapPixels_FColor_channel.2.2 _ _ true 2 1 (by decide)

/-- C19. For every buffer, every accessor and all non-negative `SizeX`, `SizeY` the counts
satisfy `BlackPixels + WhitePixels <= SizeX * SizeY`, hence each count is at most the total,
and they do not depend on the values the two output variables held before the call; a
map of a counted format with `SizeX * SizeY = 0` is classified Opaque. -/
theorem CountOpacityMapPixels_counts_once :
    (∀ (T : Type) (SrcColors : List T) (SizeX SizeY : Int) (Out : Nat × Nat)
        (Accessor : T → Dyadic), 0 ≤ SizeX → 0 ≤ SizeY →
      (((CountOpacityMapPixels_ref SrcColors SizeX SizeY Out Accessor).1 : Int) +
          (CountOpacityMapPixels_ref SrcColors SizeX SizeY Out Accessor).2 ≤ SizeX * SizeY ∧
        ((CountOpacityMapPixels_ref SrcColors SizeX SizeY Out Accessor).1 : Int) ≤
          SizeX * SizeY ∧
        ((CountOpacityMapPixels_ref SrcColors SizeX SizeY Out Accessor).2 : Int) ≤
          SizeX * SizeY)) ∧
    (∀ (T : Type) (SrcColors : List T) (SizeX SizeY : Int) (Out : Nat × Nat)
        (Accessor : T → Dyadic),
      CountOpacityMapPixels_ref SrcColors SizeX SizeY Out Accessor =
        CountOpacityMapPixels SrcColors SizeX SizeY Accessor) ∧
    (∀ (OpacityMap : UTexture2D) (NumChannels : Nat) (UseAlphaAsOpacity : Bool),
      (OpacityMap.PixelFormat = .PF_B8G8R8A8 ∨ OpacityMap.PixelFormat = .PF_G8 ∨
        OpacityMap.PixelFormat = .PF_G16) →
      OpacityMap.SizeX * OpacityMap.SizeY = 0 →
      ChooseBlendModeFromOpacityMap ⟨some OpacityMap, NumChannels⟩ UseAlphaAsOpacity =
        some .BLEND_Opaque) := by
  have href : ∀ (T : Type) (SrcColors : List T) (SizeX SizeY : Int) (Out : Nat × Nat)
      (Accessor : T → Dyadic),
      CountOpacityMapPixels_ref SrcColors SizeX SizeY Out Accessor =
        CountOpacityMapPixels SrcColors SizeX SizeY Accessor := by
    intro T SrcColors SizeX SizeY Out Accessor
    rfl
  refine ⟨?_, href, ?_⟩
  · intro T SrcColors SizeX SizeY Out Accessor hX hY
    rw [href]
    have h1 := CountOpacityMapPixels_sum_le SrcColors SizeX SizeY Accessor
    have h2 := wrapInt32_toNat_le (SizeX * SizeY) (mul_nonneg hX hY)
    omega
  · intro OpacityMap NumChannels UseAlphaAsOpacity hF h0
    have hcount : ∀ (T : Type) (Src : List T) (Accessor : T → Dyadic),
        CountOpacityMapPixels Src OpacityMap.SizeX OpacityMap.SizeY Accessor = (0, 0) := by
      intro T Src Accessor
      unfold CountOpacityMapPixels
      rw [h0]
      rfl
    have ht : toUInt32 (wrapInt32 (OpacityMap.SizeX * OpacityMap.SizeY)) = 0 := by
      rw [h0]; rfl
    unfold ChooseBlendModeFromOpacityMap OpacityMapPixelCounts
    rcases hF with h | h | h <;>
      simp only [h, CountOpacityMapPixels_FColor, CountOpacityMapPixels_uint8,
        CountOpacityMapPixels_uint16, hcount, ht, ClassifyCounts_zero]

/-- Witness of C19: stale counter values are discarded, and an empty 0x7 map is Opaque. -/
theorem CountOpacityMapPixels_counts_once_witness :
    CountOpacityMapPixels_ref [0, 255, 128] 3 1 (41, 42) (fun Color => fdivNat Color 0xFF) =
        CountOpacityMapPixels [0, 255, 128] 3 1 (fun Color => fdivNat Color 0xFF) ∧
      ChooseBlendModeFromOpacityMap ⟨some ⟨0, 7, .PF_G16, [], .TC_Default, true⟩, 1⟩ false = some .BLEND_Opaque :=
  ⟨CountOpacityMapPixels_counts_once.2.1 Nat [0, 255, 128] 3 1 (41, 42) _,
    CountOpacityMapPixels_counts_once.2.2 ⟨0, 7, .PF_G16, [], .TC_Default, true⟩ 1 false
      (Or.inr (Or.inr rfl)) (by decide)⟩


/-! ## The texture loader -/

theorem GetRequestedFormat_ne_gray (Format : ERGBFormat) :
    GetRequestedFormat Format ≠ .Gray := by
  cases Format <;> simp [GetRequestedFormat]

theorem GetRequestedFormat_cases (Format : ERGBFormat) :
    GetRequestedFormat Format = .BGRA ∨ GetRequestedFormat Format = .Invalid := by
  cases Format <;> simp [GetRequestedFormat]

/-- The texture a successful `LoadTextureFromDisk` returns is the one `CreateTexture` builds
from the wrapper's report with the requested format. -/
theorem LoadTextureFromDisk_texture (P : FPlatform) (ImagePath TextureKey : String)
    (Data : FTextureData) (Texture : UTexture2D)
    (h : LoadTextureFromDisk P ImagePath TextureKey = some Data)
    (ht : Data.Texture = some Texture) :
    ∃ (FileData : List Nat) (Wrapper : List Nat → FImageWrapper),
      P.LoadFileToArray ImagePath = some FileData ∧
      P.CreateImageWrapper (P.DetectImageFormat FileData) = some Wrapper ∧
      CreateTexture
          ((Wrapper FileData).GetRaw (GetRequestedFormat (Wrapper FileData).GetFormat)
            (Wrapper FileData).GetBitDepth)
          (Wrapper FileData).GetWidth (Wrapper FileData).GetHeight
          (GetRequestedFormat (Wrapper FileData).GetFormat) (Wrapper FileData).GetBitDepth
          TextureKey = some Texture := by
  unfold LoadTextureFromDisk at h
  by_cases h1 : P.FileExists ImagePath = true
  · rw [if_neg (not_not.mpr h1)] at h
    rcases hfile : P.LoadFileToArray ImagePath with _ | FileData
    · rw [hfile] at h
      simp only [Option.some.injEq] at h
      subst h; cases ht
    · rw [hfile] at h
      simp only [] at h
      by_cases h2 : P.DetectImageFormat FileData = .Invalid
      · rw [if_pos h2] at h
        simp only [Option.some.injEq] at h
        subst h; cases ht
      · rw [if_neg h2] at h
        rcases hwrap : P.CreateImageWrapper (P.DetectImageFormat FileData) with _ | Wrapper
        · rw [hwrap] at h
          simp only [Option.some.injEq] at h
          subst h; cases ht
        · rw [hwrap] at h
          simp only [] at h
          rcases hcreate : CreateTexture
              ((Wrapper FileData).GetRaw (GetRequestedFormat (Wrapper FileData).GetFormat)
                (Wrapper FileData).GetBitDepth)
              (Wrapper FileData).GetWidth (Wrapper FileData).GetHeight
              (GetRequestedFormat (Wrapper FileData).GetFormat) (Wrapper FileData).GetBitDepth
              TextureKey with _ | Created
          · rw [hcreate] at h; cases h
          · rw [hcreate] at h
            simp only [Option.some.injEq] at h
            subst h
            simp only [Option.some.injEq] at ht
            subst ht
            exact ⟨FileData, Wrapper, rfl, hwrap, hcreate⟩
  · rw [if_pos h1] at h
    simp only [Option.some.injEq] at h
    subst h; cases ht

/-- What the code does for the slots of C13: every texture the loader creates for a slot whose
key compares unequal to "normalMap", "roughnessMap" and "metallicMap" has default compression
and `SRGB = true`, whatever the source image is. -/
theorem LoadTextureFromDisk_other_slot_settings (P : FPlatform) (ImagePath TextureKey : String)
    (Data : FTextureData) (Texture : UTexture2D)
    (hKey : FStringEquals TextureKey "normalMap" = false ∧
      FStringEquals TextureKey "roughnessMap" = false ∧
      FStringEquals TextureKey "metallicMap" = false)
    (h : LoadTextureFromDisk P ImagePath TextureKey = some Data)
    (ht : Data.Texture = some Texture) :
    Texture.CompressionSettings = .TC_Default ∧ Texture.SRGB = true := by
  obtain ⟨FileData, Wrapper, _, _, hc⟩ := LoadTextureFromDisk_texture P ImagePath TextureKey
    Data Texture h ht
  unfold CreateTexture at hc
  split at hc
  · cases hc
  · simp only [Option.some.injEq] at hc
    subst hc
    simp [GetTextureSettings, hKey.1, hKey.2.1, hKey.2.2,
      GetRequestedFormat_ne_gray]

/-- C13, the code at the failing input: an 8-bit grayscale image (the wrapper reports `Gray`,
one true channel) loaded for the slot "opacityMap" becomes a texture flagged `SRGB = true`. -/
theorem LoadTextureFromDisk_grayscale_srgb :
    LoadTextureFromDisk (SingleImagePlatform .Gray 8 1 1 1 [200, 200, 200, 255]) "image.png"
        "opacityMap" =
      some ⟨some ⟨1, 1, .PF_B8G8R8A8, [200, 200, 200, 255], .TC_Default, true⟩, 1⟩ := by
  decide

theorem lookup_map_task {β γ : Type} (f : String × β → γ) (l : List (String × β))
    (Key : String) (Value : β) (h : l.lookup Key = some Value) :
    (l.map (fun p => (p.1, f p))).lookup Key = some (f (Key, Value)) := by
  induction l with
  | nil => simp [List.lookup] at h
  | cons p ps ih =>
    obtain ⟨k, v⟩ := p
    by_cases hk : Key = k
    · subst hk
      simp only [List.lookup, beq_self_eq_true, Option.some.injEq] at h
      subst h
      simp [List.lookup]
    · have hb : (Key == k) = false := by simpa using hk
      simp only [List.lookup, hb] at h
      simp only [List.map_cons, List.lookup, hb]
      exact ih h

theorem lookup_eq_none_of_not_mem {β : Type} (l : List (String × β)) (Key : String)
    (h : Key ∉ l.map Prod.fst) : l.lookup Key = none := by
  induction l with
  | nil => rfl
  | cons p ps ih =>
    obtain ⟨k, v⟩ := p
    simp only [List.map_cons, List.mem_cons, not_or] at h
    have hb : (Key == k) = false := by simpa using h.1
    simp only [List.lookup, hb]
    exact ih h.2

theorem lookup_append_of_not_mem {β : Type} (l1 l2 : List (String × β)) (Key : String)
    (h : Key ∉ l1.map Prod.fst) : (l1 ++ l2).lookup Key = l2.lookup Key := by
  induction l1 with
  | nil => rfl
  | cons p ps ih =>
    obtain ⟨k, v⟩ := p
    simp only [List.map_cons, List.mem_cons, not_or] at h
    have hb : (Key == k) = false := by simpa using h.1
    simp only [List.cons_append, List.lookup, hb]
    exact ih h.2

/-- Adding the entries of a list with pairwise distinct keys, none of them present yet,
appends them in order. -/
theorem foldl_Add_eq_append {β γ : Type} (f : String × β → γ) (l : List (String × β))
    (acc : List (String × γ)) (hl : (l.map Prod.fst).Nodup)
    (hacc : ∀ k, k ∈ l.map Prod.fst → k ∉ acc.map Prod.fst) :
    l.foldl (fun (m : TMap γ) p => m.Add p.1 (f p)) ⟨acc⟩ =
      ⟨acc ++ l.map (fun p => (p.1, f p))⟩ := by
  induction l generalizing acc with
  | nil => simp
  | cons p ps ih =>
    simp only [List.map_cons, List.nodup_cons] at hl
    have hp : p.1 ∉ acc.map Prod.fst := hacc p.1 (by simp)
    have hc : (TMap.mk acc).Contains p.1 = false := by
      simp [TMap.Contains, TMap.Find, lookup_eq_none_of_not_mem acc p.1 hp]
    have hadd : (TMap.mk acc).Add p.1 (f p) = ⟨acc ++ [(p.1, f p)]⟩ := by
      simp [TMap.Add, hc]
    simp only [List.foldl_cons, hadd]
    rw [ih (acc ++ [(p.1, f p)]) hl.2]
    · simp
    · intro k hk
      simp only [List.map_append, List.map_cons, List.map_nil, List.mem_append,
        List.mem_singleton, not_or]
      refine ⟨hacc k (by simp [hk]), ?_⟩
      intro he
      subst he
      exact hl.1 hk

theorem LoadTextures_eq (P : FPlatform) (MaterialContainer : FMaterialAttributeContainer)
    (hKeys : (MaterialContainer.TextureProperties.Pairs.map Prod.fst).Nodup) :
    LoadTextures P MaterialContainer =
      ⟨MaterialContainer.TextureProperties.Pairs.map
        (fun TextureProperty => (TextureProperty.1, LoadTextureTask P TextureProperty))⟩ := by
  unfold LoadTextures
  rw [foldl_Add_eq_append (LoadTextureTask P) _ [] hKeys (by simp)]
  simp

/-- C15. A texture task returns the empty descriptor (no texture, channel count 0), and no
`check` fails in it, whenever the path is empty, the file does not exist, reading it fails, or
its bytes are not of a recognized image format; and in a descriptor whose texture keys are
pairwise distinct the outcome delivered for a key is the outcome of the task of that key's own
entry, whatever the other entries and their outcomes are. -/
theorem LoadTextureTask_failure_is_empty :
    (∀ (P : FPlatform) (TextureProperty : String × String),
      (TextureProperty.2 = "" ∨ P.FileExists TextureProperty.2 = false ∨
        P.LoadFileToArray TextureProperty.2 = none ∨
        (∃ FileData, P.LoadFileToArray TextureProperty.2 = some FileData ∧
          P.DetectImageFormat FileData = .Invalid)) →
      LoadTextureTask P TextureProperty = some ⟨none, 0⟩) ∧
    (∀ (P : FPlatform) (MaterialContainer : FMaterialAttributeContainer)
        (Key Value : String),
      (MaterialContainer.TextureProperties.Pairs.map Prod.fst).Nodup →
      MaterialContainer.TextureProperties.Find Key = some Value →
      (LoadTextures P MaterialContainer).Find Key =
        some (LoadTextureTask P (Key, Value))) := by
  constructor
  · intro P TextureProperty hFail
    unfold LoadTextureTask
    by_cases he : TextureProperty.2 = ""
    · rw [if_pos he]
    · rw [if_neg he]
      unfold LoadTextureFromDisk
      rcases hFail with h | h | h | ⟨FileData, h, hd⟩
      · exact absurd h he
      · simp [h]
      · by_cases hx : P.FileExists TextureProperty.2 = true
        · simp [hx, h]
        · simp [hx]
      · by_cases hx : P.FileExists TextureProperty.2 = true
        · simp [hx, h, hd]
        · simp [hx]
  · intro P MaterialContainer Key Value hKeys hFind
    rw [LoadTextures_eq P MaterialContainer hKeys]
    exact lookup_map_task (LoadTextureTask P) _ Key Value hFind

/-- Witness of C15: a batch with a missing file and a present one; the missing one yields the
empty descriptor and the present one its texture. -/
theorem LoadTextureTask_failure_is_empty_witness :
    LoadTextureTask (SingleImagePlatform .BGRA 8 3 1 1 [1, 2, 3, 255])
        ("normalMap", "missing.png") = some ⟨none, 0⟩ ∧
      (LoadTextures (SingleImagePlatform .BGRA 8 3 1 1 [1, 2, 3, 255])
        ⟨⟨[("normalMap", "missing.png"), ("colorMap", "image.png")]⟩, ⟨[]⟩, ⟨[]⟩, ⟨[]⟩,
          "blend", "m"⟩).Find "colorMap" =
        some (some ⟨some ⟨1, 1, .PF_B8G8R8A8, [1, 2, 3, 255], .TC_Default, true⟩, 3⟩) :=
  ⟨LoadTextureTask_failure_is_empty.1 _ ("normalMap", "missing.png") (Or.inr (Or.inl rfl)),
    (LoadTextureTask_failure_is_empty.2 (SingleImagePlatform .BGRA 8 3 1 1 [1, 2, 3, 255])
      ⟨⟨[("normalMap", "missing.png"), ("colorMap", "image.png")]⟩, ⟨[]⟩, ⟨[]⟩, ⟨[]⟩,
        "blend", "m"⟩ "colorMap" "image.png" (by decide) (by decide)).trans (by decide)⟩

theorem PixelFormatFromRGB_BGRA (BitDepth : Int) (PixelFormat : EPixelFormat)
    (h : PixelFormatFromRGB .BGRA BitDepth = some PixelFormat) :
    PixelFormat = .PF_B8G8R8A8 := by
  unfold PixelFormatFromRGB at h
  by_cases hb : BitDepth = 8 ∨ BitDepth = 16
  · simp [hb] at h
    exact h.symm
  · simp [hb] at h

theorem CreateTexture_PixelFormat (Data : List Nat) (SizeX SizeY : Int) (Format : ERGBFormat)
    (BitDepth : Int) (TextureKey : String) (Texture : UTexture2D)
    (h : CreateTexture Data SizeX SizeY Format BitDepth TextureKey = some Texture) :
    PixelFormatFromRGB Format BitDepth = some Texture.PixelFormat := by
  unfold CreateTexture at h
  rcases hp : PixelFormatFromRGB Format BitDepth with _ | PixelFormat
  · rw [hp] at h; cases h
  · rw [hp] at h
    simp only [Option.some.injEq] at h
    subst h
    rfl

/-- C16. For every image whose wrapper reports a valid format (anything but `Invalid`), with
any bit depth: a texture the task creates has the format `PF_B8G8R8A8`, one of the three
counted formats, so for the descriptor the task delivers `ChooseBlendModeFromOpacityMap` passes
its format `check` and `ChooseBlendMode` returns a blend mode for every opacity, hint and
flag. -/
theorem classifier_check_unreachable (P : FPlatform) (TextureProperty : String × String)
    (Data : FTextureData)
    (hDecoded : ∀ (FileData : List Nat) (Wrapper : List Nat → FImageWrapper),
      P.LoadFileToArray TextureProperty.2 = some FileData →
      P.CreateImageWrapper (P.DetectImageFormat FileData) = some Wrapper →
      (Wrapper FileData).GetFormat ≠ .Invalid)
    (hTask : LoadTextureTask P TextureProperty = some Data) :
    (∀ Texture : UTexture2D, Data.Texture = some Texture →
      Texture.PixelFormat = .PF_B8G8R8A8 ∧
      (Texture.PixelFormat = .PF_B8G8R8A8 ∨ Texture.PixelFormat = .PF_G8 ∨
        Texture.PixelFormat = .PF_G16) ∧
      ∀ UseAlphaAsOpacity : Bool,
        (ChooseBlendModeFromOpacityMap Data UseAlphaAsOpacity).isSome = true) ∧
    (∀ (Opacity : Double) (BlendMode : EBlendMode) (UseAlphaAsOpacity : Bool),
      (ChooseBlendMode Data Opacity BlendMode UseAlphaAsOpacity).isSome = true) := by
  have hfmt : ∀ Texture : UTexture2D, Data.Texture = some Texture →
      Texture.PixelFormat = .PF_B8G8R8A8 := by
    intro Texture ht
    unfold LoadTextureTask at hTask
    by_cases he : TextureProperty.2 = ""
    · rw [if_pos he] at hTask
      simp only [Option.some.injEq] at hTask
      subst hTask; cases ht
    · rw [if_neg he] at hTask
      obtain ⟨FileData, Wrapper, hfile, hwrap, hc⟩ :=
        LoadTextureFromDisk_texture P _ _ Data Texture hTask ht
      have hv := hDecoded FileData Wrapper hfile hwrap
      have hreq : GetRequestedFormat (Wrapper FileData).GetFormat = .BGRA := by
        cases hg : (Wrapper FileData).GetFormat <;> simp_all [GetRequestedFormat]
      rw [hreq] at hc
      have hp := CreateTexture_PixelFormat _ _ _ _ _ _ _ hc
      exact PixelFormatFromRGB_BGRA _ _ hp
  have hcls : ∀ Texture : UTexture2D, Data.Texture = some Texture →
      ∀ UseAlphaAsOpacity : Bool,
        (ChooseBlendModeFromOpacityMap Data UseAlphaAsOpacity).isSome = true := by
    intro Texture ht UseAlphaAsOpacity
    have hf := hfmt Texture ht
    unfold ChooseBlendModeFromOpacityMap OpacityMapPixelCounts
    simp [ht, hf]
  refine ⟨fun Texture ht => ⟨hfmt Texture ht, Or.inl (hfmt Texture ht), hcls Texture ht⟩, ?_⟩
  intro Opacity BlendMode UseAlphaAsOpacity
  unfold ChooseBlendMode
  split_ifs with h1 h2 h3
  · rfl
  · rfl
  · rcases hd : Data.Texture with _ | Texture
    · rw [hd] at h3; simp at h3
    · exact hcls Texture hd UseAlphaAsOpacity
  · rfl

/-- Witness of C16: a 16-bit grayscale image becomes a `PF_B8G8R8A8` texture and is
classified. -/
theorem classifier_check_unreachable_witness :
    LoadTextureTask (SingleImagePlatform .Gray 16 1 1 1 [0, 0, 0, 255])
        ("opacityMap", "image.png") =
        some ⟨some ⟨1, 1, .PF_B8G8R8A8, [0, 0, 0, 255], .TC_Default, true⟩, 1⟩ ∧
      (ChooseBlendMode ⟨some ⟨1, 1, .PF_B8G8R8A8, [0, 0, 0, 255], .TC_Default, true⟩, 1⟩
        (.Pos (Dyadic.ofNat 1)) (GetBlendMode "blend") false).isSome = true :=
  ⟨by decide,
    (classifier_check_unreachable (SingleImagePlatform .Gray 16 1 1 1 [0, 0, 0, 255])
      ("opacityMap", "image.png") _
      (by
        intro FileData Wrapper _ hw
        simp only [SingleImagePlatform, Option.some.injEq] at hw
        subst hw
        simp)
      (by decide)).2 _ _ _⟩

/-! ## The material instantiator -/

/-- C14 (amended). When the first part of `GameThread_CreateMaterialInstance` has chosen the
blend mode and the descriptor holds the shader string `Shader`, the function returns an
instance such that: if `Shader` is non-empty and compares unequal to "CityEngineShader" and to
"CityEnginePBRShader" under the engine's string comparison, which ignores the case of letters,
`LoadObject` is called once, with `Shader + "." + GetBaseFilename(Shader)`, and the parent is
the loaded material when that call succeeds and the template of the chosen blend mode when it
fails; if `Shader` is empty or compares equal to one of the two reserved names, `LoadObject`
is not called and the parent is the template of the chosen blend mode.  The template of
Translucent, Masked and Opaque is the caller's `TranslucentParent`, `MaskedParent` and
`OpaqueParent`. -/
theorem parent_template_selection (P : FPlatform)
    (OpaqueParent MaskedParent TranslucentParent : Option Nat)
    (MaterialContainer : FMaterialAttributeContainer) (TextureProperties : TMap FTextureData)
    (UseAlphaAsOpacity : Bool) (ChosenBlendMode : EBlendMode) (Shader : String)
    (hBlend : ResolveBlendMode P MaterialContainer =
      some (TextureProperties, UseAlphaAsOpacity, ChosenBlendMode))
    (hShader : MaterialContainer.StringProperties.Find "shader" = some Shader) :
    (∃ (Instance : UMaterialInstanceDynamic) (Calls : List String),
      GameThread_CreateMaterialInstance P OpaqueParent MaskedParent TranslucentParent
        MaterialContainer = some (Instance, Calls) ∧
      ((Shader ≠ "" ∧ FStringEquals Shader "CityEngineShader" = false ∧
          FStringEquals Shader "CityEnginePBRShader" = false) →
        Calls = [Shader ++ "." ++ P.GetBaseFilename Shader] ∧
        (∀ Material : Nat,
          P.LoadObject (Shader ++ "." ++ P.GetBaseFilename Shader) = some Material →
          Instance.Parent = some Material) ∧
        (P.LoadObject (Shader ++ "." ++ P.GetBaseFilename Shader) = none →
          Instance.Parent = GetMaterialByBlendMode ChosenBlendMode OpaqueParent MaskedParent
            TranslucentParent)) ∧
      ((Shader = "" ∨ FStringEquals Shader "CityEngineShader" = true ∨
          FStringEquals Shader "CityEnginePBRShader" = true) →
        Calls = [] ∧
        Instance.Parent = GetMaterialByBlendMode ChosenBlendMode OpaqueParent MaskedParent
          TranslucentParent)) ∧
    GetMaterialByBlendMode .BLEND_Translucent OpaqueParent MaskedParent TranslucentParent =
      TranslucentParent ∧
    GetMaterialByBlendMode .BLEND_Masked OpaqueParent MaskedParent TranslucentParent =
      MaskedParent ∧
    GetMaterialByBlendMode .BLEND_Opaque OpaqueParent MaskedParent TranslucentParent =
      OpaqueParent := by
  refine ⟨?_, rfl, rfl, rfl⟩
  unfold GameThread_CreateMaterialInstance
  rw [hBlend]
  simp only [hShader, CE_DEFAULT_SHADER_NAME, CE_PBR_SHADER_NAME]
  by_cases hc : ¬ Shader = "" ∧ ¬ FStringEquals Shader "CityEngineShader" = true ∧
      ¬ FStringEquals Shader "CityEnginePBRShader" = true
  · rw [if_pos hc]
    refine ⟨_, _, rfl, ?_, ?_⟩
    · intro _
      refine ⟨rfl, ?_, ?_⟩
      · intro Material hm
        simp only [hm]
      · intro hn
        simp only [hn]
    · intro hr
      rcases hr with h | h | h
      · exact absurd h hc.1
      · exact absurd h hc.2.1
      · exact absurd h hc.2.2
  · rw [if_neg hc]
    refine ⟨_, _, rfl, ?_, ?_⟩
    · intro h
      exact absurd ⟨h.1, by simp [h.2.1], by simp [h.2.2]⟩ hc
    · intro _
      exact ⟨rfl, rfl⟩

/-- Witness of C14: on the game thread, without textures and with opacity 1, the reserved name
"CityEngineShader" selects the Opaque template without a `LoadObject` call. -/
theorem parent_template_selection_witness :
    ∃ (Instance : UMaterialInstanceDynamic) (Calls : List String),
      GameThread_CreateMaterialInstance (SingleImagePlatform .BGRA 8 3 1 1 []) (some 1)
        (some 2) (some 3)
        ⟨⟨[]⟩, ⟨[]⟩, ⟨[("opacity", .Pos (Dyadic.ofNat 1))]⟩,
          ⟨[("shader", "CityEngineShader")]⟩, "opaque", "m"⟩ = some (Instance, Calls) ∧
      Calls = [] ∧ Instance.Parent = some 1 := by
  obtain ⟨⟨Instance, Calls, hrun, _, hreserved⟩, _⟩ :=
    parent_template_selection (SingleImagePlatform .BGRA 8 3 1 1 []) (some 1) (some 2) (some 3)
      ⟨⟨[]⟩, ⟨[]⟩, ⟨[("opacity", .Pos (Dyadic.ofNat 1))]⟩,
        ⟨[("shader", "CityEngineShader")]⟩, "opaque", "m"⟩ ⟨[]⟩ false .BLEND_Opaque
      "CityEngineShader" (by decide) (by decide)
  exact ⟨Instance, Calls, hrun, (hreserved (Or.inr (Or.inl (by decide)))).1,
    (hreserved (Or.inr (Or.inl (by decide)))).2⟩

/-- C14 as stated fails: the shader string "cityengineshader" is non-empty and differs from
both reserved identifiers, and `LoadObject` would resolve its path to the material 9, yet
`LoadObject` is not called and the parent is the Opaque template 1. -/
theorem parent_selection_case_counterexample :
    "cityengineshader" ≠ "" ∧ "cityengineshader" ≠ "CityEngineShader" ∧
      "cityengineshader" ≠ "CityEnginePBRShader" ∧
      ({ SingleImagePlatform .BGRA 8 3 1 1 [] with LoadObject := fun _ => some 9 }
          : FPlatform).LoadObject
        ("cityengineshader" ++ "." ++ "cityengineshader") = some 9 ∧
      (GameThread_CreateMaterialInstance
        { SingleImagePlatform .BGRA 8 3 1 1 [] with LoadObject := fun _ => some 9 }
        (some 1) (some 2) (some 3)
        ⟨⟨[]⟩, ⟨[]⟩, ⟨[("opacity", .Pos (Dyadic.ofNat 1))]⟩,
          ⟨[("shader", "cityengineshader")]⟩, "opaque", "m"⟩).map
        (fun Result => (Result.1.Parent, Result.2)) = some (some 1, []) := by
  decide

/-! ## Descriptor and key equality -/

theorem mem_of_lookup_eq_some {β : Type} (l : List (String × β)) (Key : String) (Value : β)
    (h : l.lookup Key = some Value) : (Key, Value) ∈ l := by
  induction l with
  | nil => simp [List.lookup] at h
  | cons p ps ih =>
    obtain ⟨k, v⟩ := p
    by_cases hk : Key = k
    · subst hk
      simp only [List.lookup, beq_self_eq_true, Option.some.injEq] at h
      subst h
      simp
    · have hb : (Key == k) = false := by simpa using hk
      simp only [List.lookup, hb] at h
      exact List.mem_cons_of_mem _ (ih h)

theorem lookup_of_mem_of_nodup {β : Type} (l : List (String × β)) (Key : String) (Value : β)
    (hn : (l.map Prod.fst).Nodup) (h : (Key, Value) ∈ l) : l.lookup Key = some Value := by
  induction l with
  | nil => simp at h
  | cons p ps ih =>
    obtain ⟨k, v⟩ := p
    simp only [List.map_cons, List.nodup_cons] at hn
    rcases List.mem_cons.mp h with he | hm
    · simp only [Prod.mk.injEq] at he
      obtain ⟨rfl, rfl⟩ := he
      simp [List.lookup]
    · have hne : Key ≠ k := by
        intro he
        subst he
        exact hn.1 (List.mem_map.mpr ⟨(Key, Value), hm, rfl⟩)
      have hb : (Key == k) = false := by simpa using hne
      simp only [List.lookup, hb]
      exact ih hn.2 hm

theorem mem_keys_iff_lookup {β : Type} (l : List (String × β)) (Key : String) :
    Key ∈ l.map Prod.fst ↔ l.lookup Key ≠ none := by
  constructor
  · intro h hnone
    induction l with
    | nil => simp at h
    | cons p ps ih =>
      obtain ⟨k, v⟩ := p
      by_cases hk : Key = k
      · subst hk
        simp [List.lookup] at hnone
      · have hb : (Key == k) = false := by simpa using hk
        simp only [List.lookup, hb] at hnone
        simp only [List.map_cons, List.mem_cons] at h
        rcases h with h | h
        · exact hk h
        · exact ih h hnone
  · intro h
    by_contra hc
    exact h (lookup_eq_none_of_not_mem l Key hc)

/-- Maps with unique keys that are the same mapping compare equal. -/
theorem TMap.OrderIndependentCompareEqual_of_SameMapping {V : Type} (eqV : V → V → Bool)
    (A B : TMap V) (hA : A.UniqueKeys) (hB : B.UniqueKeys) (h : TMap.SameMapping eqV A B) :
    TMap.OrderIndependentCompareEqual eqV A B = true := by
  have hkeys : ∀ k, k ∈ A.Pairs.map Prod.fst ↔ k ∈ B.Pairs.map Prod.fst := by
    intro k
    rw [mem_keys_iff_lookup, mem_keys_iff_lookup]
    rcases h k with ⟨h1, h2⟩ | ⟨a, b, h1, h2, _⟩
    · simp only [TMap.Find] at h1 h2
      simp [h1, h2]
    · simp only [TMap.Find] at h1 h2
      simp [h1, h2]
  have hperm := (List.perm_ext_iff_of_nodup hA hB).mpr hkeys
  have hlen : A.Pairs.length = B.Pairs.length := by
    have := hperm.length_eq
    simpa using this
  unfold TMap.OrderIndependentCompareEqual TMap.Num
  rw [if_neg (not_not.mpr hlen), List.all_eq_true]
  intro It hIt
  have hfind : A.Find It.1 = some It.2 := lookup_of_mem_of_nodup A.Pairs It.1 It.2 hA hIt
  rcases h It.1 with ⟨h1, _⟩ | ⟨a, b, h1, h2, h3⟩
  · rw [hfind] at h1; cases h1
  · rw [hfind] at h1
    simp only [Option.some.injEq] at h1
    subst h1
    simp only [h2, h3]

theorem FStringEquals_self (a : String) : FStringEquals a a = true := by
  simp [FStringEquals]

theorem Double.eq_refl_of_ne_nan (a : Double) (h : a ≠ .NaN) : Double.eq a a = true := by
  cases a <;> simp_all [Double.eq, Double.lt, Dyadic.lt]

theorem FLinearColor.eq_refl_of_no_nan (c : FLinearColor)
    (h : c.R ≠ .NaN ∧ c.G ≠ .NaN ∧ c.B ≠ .NaN ∧ c.A ≠ .NaN) : FLinearColor.eq c c = true := by
  simp [FLinearColor.eq, Double.eq_refl_of_ne_nan _ h.1, Double.eq_refl_of_ne_nan _ h.2.1,
    Double.eq_refl_of_ne_nan _ h.2.2.1, Double.eq_refl_of_ne_nan _ h.2.2.2]

/-- Maps that give the same result for every key are the same mapping, provided every stored
value compares equal to itself. -/
theorem TMap.SameMapping_of_Find_eq {V : Type} (eqV : V → V → Bool) (A B : TMap V)
    (hFind : ∀ Key : String, A.Find Key = B.Find Key)
    (hSelf : ∀ (Key : String) (Value : V), A.Find Key = some Value → eqV Value Value = true) :
    TMap.SameMapping eqV A B := by
  intro Key
  rcases hf : A.Find Key with _ | a
  · exact Or.inl ⟨rfl, by rw [← hFind Key, hf]⟩
  · exact Or.inr ⟨a, a, rfl, by rw [← hFind Key, hf], hSelf Key a hf⟩

/-- Descriptors whose maps have unique keys and are the same mappings, value by value under
the comparison of the value type, and whose blend modes compare equal, compare equal. -/
theorem FMaterialAttributeContainer.operatorEq_of_SameMapping
    (Lhs RHS : FMaterialAttributeContainer)
    (hL : Lhs.TextureProperties.UniqueKeys ∧ Lhs.ColorProperties.UniqueKeys ∧
      Lhs.ScalarProperties.UniqueKeys ∧ Lhs.StringProperties.UniqueKeys)
    (hR : RHS.TextureProperties.UniqueKeys ∧ RHS.ColorProperties.UniqueKeys ∧
      RHS.ScalarProperties.UniqueKeys ∧ RHS.StringProperties.UniqueKeys)
    (hTex : TMap.SameMapping FStringEquals Lhs.TextureProperties RHS.TextureProperties)
    (hCol : TMap.SameMapping FLinearColor.eq Lhs.ColorProperties RHS.ColorProperties)
    (hSca : TMap.SameMapping Double.eq Lhs.ScalarProperties RHS.ScalarProperties)
    (hStr : TMap.SameMapping FStringEquals Lhs.StringProperties RHS.StringProperties)
    (hBlend : FStringEquals Lhs.BlendMode RHS.BlendMode = true) :
    FMaterialAttributeContainer.operatorEq Lhs RHS = true := by
  unfold FMaterialAttributeContainer.operatorEq
  simp only [TMap.OrderIndependentCompareEqual_of_SameMapping _ _ _ hL.1 hR.1 hTex,
    TMap.OrderIndependentCompareEqual_of_SameMapping _ _ _ hL.2.1 hR.2.1 hCol,
    TMap.OrderIndependentCompareEqual_of_SameMapping _ _ _ hL.2.2.1 hR.2.2.1 hSca,
    TMap.OrderIndependentCompareEqual_of_SameMapping _ _ _ hL.2.2.2 hR.2.2.2 hStr,
    hBlend, Bool.and_self]

/-- C11 (amended). Two descriptors whose maps have unique keys (the container invariant), whose
texture, color, scalar and string maps are identical as key-to-value mappings whatever the
order of their entries (every key gives the same lookup result in both), whose blend-mode
strings are identical, and none of whose scalar values or color components is a NaN, compare
equal under `operator==` and not unequal under `operator!=`, whatever display names the two
are given; and `operator!=` is the negation of `operator==` for all descriptors. -/
theorem operatorEq_ignores_name :
    (∀ (Lhs RHS : FMaterialAttributeContainer) (NameL NameR : String),
      (Lhs.TextureProperties.UniqueKeys ∧ Lhs.ColorProperties.UniqueKeys ∧
        Lhs.ScalarProperties.UniqueKeys ∧ Lhs.StringProperties.UniqueKeys) →
      (RHS.TextureProperties.UniqueKeys ∧ RHS.ColorProperties.UniqueKeys ∧
        RHS.ScalarProperties.UniqueKeys ∧ RHS.StringProperties.UniqueKeys) →
      (∀ Key : String, Lhs.TextureProperties.Find Key = RHS.TextureProperties.Find Key) →
      (∀ Key : String, Lhs.ColorProperties.Find Key = RHS.ColorProperties.Find Key) →
      (∀ Key : String, Lhs.ScalarProperties.Find Key = RHS.ScalarProperties.Find Key) →
      (∀ Key : String, Lhs.StringProperties.Find Key = RHS.StringProperties.Find Key) →
      Lhs.BlendMode = RHS.BlendMode →
      (∀ (Key : String) (Value : Double),
        Lhs.ScalarProperties.Find Key = some Value → Value ≠ .NaN) →
      (∀ (Key : String) (Color : FLinearColor), Lhs.ColorProperties.Find Key = some Color →
        Color.R ≠ .NaN ∧ Color.G ≠ .NaN ∧ Color.B ≠ .NaN ∧ Color.A ≠ .NaN) →
      FMaterialAttributeContainer.operatorEq { Lhs with Name := NameL }
          { RHS with Name := NameR } = true ∧
        FMaterialAttributeContainer.operatorNe { Lhs with Name := NameL }
          { RHS with Name := NameR } = false) ∧
    (∀ Lhs RHS : FMaterialAttributeContainer,
      FMaterialAttributeContainer.operatorNe Lhs RHS =
        !FMaterialAttributeContainer.operatorEq Lhs RHS) := by
  refine ⟨?_, fun _ _ => rfl⟩
  intro Lhs RHS NameL NameR hL hR hTex hCol hSca hStr hBlend hScaNaN hColNaN
  have heq : FMaterialAttributeContainer.operatorEq { Lhs with Name := NameL }
      { RHS with Name := NameR } = true :=
    FMaterialAttributeContainer.operatorEq_of_SameMapping _ _ hL hR
      (TMap.SameMapping_of_Find_eq _ _ _ hTex (fun _ Value _ => FStringEquals_self Value))
      (TMap.SameMapping_of_Find_eq _ _ _ hCol
        (fun Key Color h => FLinearColor.eq_refl_of_no_nan Color (hColNaN Key Color h)))
      (TMap.SameMapping_of_Find_eq _ _ _ hSca
        (fun Key Value h => Double.eq_refl_of_ne_nan Value (hScaNaN Key Value h)))
      (TMap.SameMapping_of_Find_eq _ _ _ hStr (fun _ Value _ => FStringEquals_self Value))
      (by
        show FStringEquals Lhs.BlendMode RHS.BlendMode = true
        rw [hBlend]
        exact FStringEquals_self _)
  refine ⟨heq, ?_⟩
  unfold FMaterialAttributeContainer.operatorNe
  rw [heq]
  rfl

/-- Witness of C11: the two texture entries are stored in opposite orders and the display
names differ. -/
theorem operatorEq_ignores_name_witness :
    FMaterialAttributeContainer.operatorEq
        ⟨⟨[("colorMap", "a.png"), ("opacityMap", "b.png")]⟩,
          ⟨[("color", ⟨.Pos (Dyadic.ofNat 1), .Pos (Dyadic.ofNat 0), .Pos (Dyadic.ofNat 0),
            .Pos (Dyadic.ofNat 1)⟩)]⟩,
          ⟨[("opacity", .Pos (Dyadic.ofNat 1))]⟩, ⟨[("shader", "")]⟩, "blend", "first"⟩
        ⟨⟨[("opacityMap", "b.png"), ("colorMap", "a.png")]⟩,
          ⟨[("color", ⟨.Pos (Dyadic.ofNat 1), .Pos (Dyadic.ofNat 0), .Pos (Dyadic.ofNat 0),
            .Pos (Dyadic.ofNat 1)⟩)]⟩,
          ⟨[("opacity", .Pos (Dyadic.ofNat 1))]⟩, ⟨[("shader", "")]⟩, "blend", "second"⟩ =
      true :=
  (operatorEq_ignores_name.1
    ⟨⟨[("colorMap", "a.png"), ("opacityMap", "b.png")]⟩,
      ⟨[("color", ⟨.Pos (Dyadic.ofNat 1), .Pos (Dyadic.ofNat 0), .Pos (Dyadic.ofNat 0),
        .Pos (Dyadic.ofNat 1)⟩)]⟩,
      ⟨[("opacity", .Pos (Dyadic.ofNat 1))]⟩, ⟨[("shader", "")]⟩, "blend", "x"⟩
    ⟨⟨[("opacityMap", "b.png"), ("colorMap", "a.png")]⟩,
      ⟨[("color", ⟨.Pos (Dyadic.ofNat 1), .Pos (Dyadic.ofNat 0), .Pos (Dyadic.ofNat 0),
        .Pos (Dyadic.ofNat 1)⟩)]⟩,
      ⟨[("opacity", .Pos (Dyadic.ofNat 1))]⟩, ⟨[("shader", "")]⟩, "blend", "y"⟩
    "first" "second"
    (by simp [TMap.UniqueKeys]) (by simp [TMap.UniqueKeys])
    (by
      intro Key
      by_cases h1 : Key = "colorMap"
      · subst h1; decide
      · by_cases h2 : Key = "opacityMap"
        · subst h2; decide
        · have hb1 : (Key == "colorMap") = false := by simpa using h1
          have hb2 : (Key == "opacityMap") = false := by simpa using h2
          simp [TMap.Find, List.lookup, hb1, hb2])
    (fun _ => rfl) (fun _ => rfl) (fun _ => rfl) rfl
    (by
      intro Key Value h
      have hm := mem_of_lookup_eq_some _ _ _ h
      simp only [List.mem_singleton, Prod.mk.injEq] at hm
      rw [hm.2]
      decide)
    (by
      intro Key Color h
      have hm := mem_of_lookup_eq_some _ _ _ h
      simp only [List.mem_singleton, Prod.mk.injEq] at hm
      rw [hm.2]
      decide)).1

/-- C11 as stated fails: two descriptors with identical maps and blend mode that differ in
the display name only, holding a NaN scalar, do not compare equal. -/
theorem operatorEq_nan_counterexample :
    FMaterialAttributeContainer.operatorEq
        ⟨⟨[]⟩, ⟨[]⟩, ⟨[("opacity", .NaN)]⟩, ⟨[]⟩, "blend", "first"⟩
        ⟨⟨[]⟩, ⟨[]⟩, ⟨[("opacity", .NaN)]⟩, ⟨[]⟩, "blend", "second"⟩ = false ∧
      FMaterialAttributeContainer.operatorNe
        ⟨⟨[]⟩, ⟨[]⟩, ⟨[("opacity", .NaN)]⟩, ⟨[]⟩, "blend", "first"⟩
        ⟨⟨[]⟩, ⟨[]⟩, ⟨[("opacity", .NaN)]⟩, ⟨[]⟩, "blend", "second"⟩ = true := by
  decide

theorem TArrayEq_iff {T : Type} (eqT : T → T → Bool) (l1 l2 : List T) :
    TArrayEq eqT l1 l2 = true ↔
      l1.length = l2.length ∧
        ∀ (i : Nat) (h1 : i < l1.length) (h2 : i < l2.length),
          eqT (l1.get ⟨i, h1⟩) (l2.get ⟨i, h2⟩) = true := by
  induction l1 generalizing l2 with
  | nil =>
    cases l2 with
    | nil => simp [TArrayEq]
    | cons y ys => simp [TArrayEq]
  | cons x xs ih =>
    cases l2 with
    | nil => simp [TArrayEq]
    | cons y ys =>
      simp only [TArrayEq, Bool.and_eq_true, ih ys, List.length_cons, Nat.add_right_cancel_iff]
      constructor
      · rintro ⟨hxy, hlen, hrest⟩
        refine ⟨hlen, ?_⟩
        intro i h1 h2
        cases i with
        | zero => exact hxy
        | succ j => exact hrest j (by omega) (by omega)
      · rintro ⟨hlen, hall⟩
        refine ⟨hall 0 (by omega) (by omega), hlen, ?_⟩
        intro i h1 h2
        exact hall (i + 1) (by omega) (by omega)

theorem TArrayEq_append_cons_false {T : Type} (eqT : T → T → Bool) (Before r1 r2 : List T)
    (x y : T) (h : eqT x y = false) :
    TArrayEq eqT (Before ++ x :: r1) (Before ++ y :: r2) = false := by
  induction Before with
  | nil => simp [TArrayEq, h]
  | cons b bs ih => simp [TArrayEq, ih]

theorem lookup_replace {β : Type} (l : List (String × β)) (Key : String) (Old New : β)
    (h : l.lookup Key = some Old) :
    (l.map (fun p => if p.1 = Key then (Key, New) else p)).lookup Key = some New := by
  induction l with
  | nil => simp [List.lookup] at h
  | cons p ps ih =>
    obtain ⟨k, v⟩ := p
    by_cases hk : Key = k
    · subst hk
      have hf : (if (Key, v).1 = Key then (Key, New) else (Key, v)) = (Key, New) := if_pos rfl
      simp only [List.map_cons, hf]
      simp [List.lookup]
    · have hb : (Key == k) = false := by simpa using hk
      have hk2 : ¬ (k, v).1 = Key := fun he => hk he.symm
      have hf : (if (k, v).1 = Key then (Key, New) else (k, v)) = (k, v) := if_neg hk2
      simp only [List.lookup, hb] at h
      show List.lookup Key ((if (k, v).1 = Key then (Key, New) else (k, v)) ::
        List.map (fun p => if p.1 = Key then (Key, New) else p) ps) = some New
      rw [hf]
      simp only [List.lookup, hb]
      exact ih h

/-- Replacing the value of a color by one that compares unequal makes the descriptor compare
unequal to the original. -/
theorem FMaterialAttributeContainer.operatorEq_color_changed
    (D : FMaterialAttributeContainer) (Key : String) (Old New : FLinearColor)
    (hOld : D.ColorProperties.Find Key = some Old) (hNew : FLinearColor.eq New Old = false) :
    FMaterialAttributeContainer.operatorEq D
      { D with ColorProperties := D.ColorProperties.Add Key New } = false := by
  have hc : D.ColorProperties.Contains Key = true := by simp [TMap.Contains, hOld]
  have hadd : D.ColorProperties.Add Key New =
      ⟨D.ColorProperties.Pairs.map (fun p => if p.1 = Key then (Key, New) else p)⟩ := by
    simp [TMap.Add, hc]
  have hfind : (D.ColorProperties.Add Key New).Find Key = some New := by
    rw [hadd]
    exact lookup_replace D.ColorProperties.Pairs Key Old New hOld
  have hmem := mem_of_lookup_eq_some D.ColorProperties.Pairs Key Old hOld
  have hcol : TMap.OrderIndependentCompareEqual FLinearColor.eq D.ColorProperties
      (D.ColorProperties.Add Key New) = false := by
    unfold TMap.OrderIndependentCompareEqual
    split_ifs
    · rfl
    · rw [← Bool.not_eq_true, List.all_eq_true]
      intro hall
      have := hall (Key, Old) hmem
      simp only [hfind, hNew] at this
      cases this
  unfold FMaterialAttributeContainer.operatorEq
  simp only [hcol, Bool.and_false, Bool.false_and]

/-- C12. Two instance keys compare equal under `operator==` iff their prototype ids are equal
and their override lists have the same length with the descriptors at every position comparing
equal under the descriptor `operator==`, which ignores display names; `operator!=` is the
negation.  Two placements put into an empty instance map end in one group with both
transforms when their keys compare equal and in two groups otherwise.  Equality is
order-sensitive: changing the value of a color of one override to one that compares unequal,
or swapping two overrides that compare unequal, gives a key that compares unequal. -/
theorem operatorEq_key_iff :
    (∀ Lhs RHS : FInstanceCacheKey,
      FInstanceCacheKey.operatorEq Lhs RHS = true ↔
        (Lhs.PrototypeId = RHS.PrototypeId ∧
          Lhs.MaterialOverrides.length = RHS.MaterialOverrides.length ∧
          ∀ (i : Nat) (h1 : i < Lhs.MaterialOverrides.length)
            (h2 : i < RHS.MaterialOverrides.length),
            FMaterialAttributeContainer.operatorEq (Lhs.MaterialOverrides.get ⟨i, h1⟩)
              (RHS.MaterialOverrides.get ⟨i, h2⟩) = true)) ∧
    (∀ (Lhs RHS : FMaterialAttributeContainer) (NameL NameR : String),
      FMaterialAttributeContainer.operatorEq { Lhs with Name := NameL }
          { RHS with Name := NameR } =
        FMaterialAttributeContainer.operatorEq Lhs RHS) ∧
    (∀ Lhs RHS : FInstanceCacheKey,
      FInstanceCacheKey.operatorNe Lhs RHS = !FInstanceCacheKey.operatorEq Lhs RHS) ∧
    (∀ (Key1 Key2 : FInstanceCacheKey) (Transform1 Transform2 : Nat),
      AddPlacement (AddPlacement [] Key1 Transform1) Key2 Transform2 =
        if FInstanceCacheKey.operatorEq Key1 Key2 = true then
          [(Key1, [Transform1, Transform2])]
        else [(Key1, [Transform1]), (Key2, [Transform2])]) ∧
    (∀ (PrototypeId : Int) (Before After : List FMaterialAttributeContainer)
        (D : FMaterialAttributeContainer) (Key : String) (Old New : FLinearColor),
      D.ColorProperties.Find Key = some Old → FLinearColor.eq New Old = false →
      FInstanceCacheKey.operatorEq ⟨PrototypeId, Before ++ D :: After⟩
        ⟨PrototypeId,
          Before ++ { D with ColorProperties := D.ColorProperties.Add Key New } :: After⟩ =
        false) ∧
    (∀ (PrototypeId : Int) (Before Middle After : List FMaterialAttributeContainer)
        (D1 D2 : FMaterialAttributeContainer),
      FMaterialAttributeContainer.operatorEq D1 D2 = false →
      FInstanceCacheKey.operatorEq ⟨PrototypeId, Before ++ D1 :: (Middle ++ D2 :: After)⟩
        ⟨PrototypeId, Before ++ D2 :: (Middle ++ D1 :: After)⟩ = false) := by
  refine ⟨?_, fun _ _ _ _ => rfl, fun _ _ => rfl, ?_, ?_, ?_⟩
  · intro Lhs RHS
    unfold FInstanceCacheKey.operatorEq
    rw [Bool.and_eq_true, decide_eq_true_iff, TArrayEq_iff]
  · intro Key1 Key2 Transform1 Transform2
    simp only [AddPlacement]
    split_ifs <;> simp
  · intro PrototypeId Before After D Key Old New hOld hNew
    unfold FInstanceCacheKey.operatorEq
    rw [TArrayEq_append_cons_false _ _ _ _ _ _
      (FMaterialAttributeContainer.operatorEq_color_changed D Key Old New hOld hNew)]
    simp
  · intro PrototypeId Before Middle After D1 D2 h
    unfold FInstanceCacheKey.operatorEq
    rw [TArrayEq_append_cons_false _ _ _ _ _ _ h]
    simp

/-- Witness of C12: two keys with the same prototype whose single overrides differ in the
display name only compare equal; after the color of the override is changed they do not. -/
theorem operatorEq_key_iff_witness :
    FInstanceCacheKey.operatorEq ⟨7, [SampleDescriptor "first"]⟩
        ⟨7, [SampleDescriptor "second"]⟩ = true ∧
      FInstanceCacheKey.operatorEq ⟨7, [] ++ SampleDescriptor "first" :: []⟩
        ⟨7, [] ++ { SampleDescriptor "first" with
          ColorProperties := (SampleDescriptor "first").ColorProperties.Add "color"
            ⟨.Pos (Dyadic.ofNat 0), .Pos (Dyadic.ofNat 1), .Pos (Dyadic.ofNat 0),
              .Pos (Dyadic.ofNat 1)⟩ } :: []⟩ = false :=
  ⟨(operatorEq_key_iff.1 ⟨7, [SampleDescriptor "first"]⟩ ⟨7, [SampleDescriptor "second"]⟩).mpr
      ⟨rfl, rfl, by
        intro i h1 h2
        have hi : i = 0 := by simpa using h1
        subst hi
        rfl⟩,
    operatorEq_key_iff.2.2.2.2.1 7 [] [] (SampleDescriptor "first") "color"
      ⟨.Pos (Dyadic.ofNat 1), .Pos (Dyadic.ofNat 0), .Pos (Dyadic.ofNat 0),
        .Pos (Dyadic.ofNat 1)⟩
      ⟨.Pos (Dyadic.ofNat 0), .Pos (Dyadic.ofNat 1), .Pos (Dyadic.ofNat 0),
        .Pos (Dyadic.ofNat 1)⟩ (by decide) (by decide)⟩

end Vitruvio
